import Mathlib

/-!
# Stack (stack.hpp): a dynamic-array-backed LIFO container

Shallow embedding of `src/stack.hpp`.

* `std::size_t` values are natural numbers below `SIZE_MOD = 2 ^ 64`; the
  arithmetic the class performs on them (`m_Capacity * 2`, `++m_Size`,
  `m_Size - 1`) is reduced modulo `SIZE_MOD` where the C++ would wrap.
* The free store is a `Heap`: a map from block addresses to blocks, a counter
  giving the next address `::operator new` hands out, and a log of the
  allocation and lifetime events performed so far.  A block is measured in
  cells of `sizeof(T)` bytes; a cell is either raw storage (`none`) or holds
  a live object (`some v`).
* A `Stack` object is the triple of its data members; `m_Container` is the
  address of its block.  Member functions take the heap and the object and
  return the new heap and object, or a `Fault`: the `std::invalid_argument`
  thrown by `Reallocate`, or an access the C++ standard leaves undefined
  (outside a live block, or to a cell without a live object).
* A `const ValueType&` argument is a `ValueRef`: an object outside the heap
  or a cell of a block, read at the point where the source reads it.
* Where the state at a throw matters (`Stack.Reallocate_outcome`) a call ends
  in an `Outcome`: it returns, it throws with the heap and the object as they
  are at the throw, or its behaviour is undefined; the allocator is a
  parameter that says which byte counts it grants.
-/

namespace StackHpp

/-- Number of values of `std::size_t` (a 64-bit unsigned integer). -/
def SIZE_MOD : Nat := 2 ^ 64

/-- Ways a member function can fail to return normally. -/
inductive Fault where
  | invalid_argument
  | undefined_behavior
  deriving DecidableEq

/-- Allocation and object-lifetime events, in cells of `sizeof(T)` bytes. -/
inductive Event where
  | alloc (p n : Nat)
  | dealloc (p n : Nat)
  | construct (p i : Nat)
  | destruct (p i : Nat)
  deriving DecidableEq

/-- A block of storage obtained from `::operator new`. -/
structure Block (T : Type) where
  slots : Nat
  cell : Nat → Option T

/-- The free store. -/
structure Heap (T : Type) where
  block : Nat → Option (Block T)
  fresh : Nat
  log : List Event

/-- A free store with nothing allocated. -/
def Heap.empty (T : Type) : Heap T :=
  { block := fun _ => none, fresh := 0, log := [] }

variable {T : Type}

/-- Source: `::operator new(n * sizeof(T))` when the request is granted and the
    byte count is the exact product: a new block of `n` raw cells.  The
    wrapping product and the refusal (`std::bad_alloc`) are made explicit in
    `Stack.Reallocate_outcome`. -/
def Heap.operator_new (h : Heap T) (n : Nat) : Heap T × Nat :=
  ({ block := fun q => if q = h.fresh then some { slots := n, cell := fun _ => none } else h.block q,
     fresh := h.fresh + 1,
     log := h.log ++ [Event.alloc h.fresh n] }, h.fresh)

/-- Source: `::operator delete(p, n * sizeof(T))`: releases the block at `p`. -/
def Heap.operator_delete (h : Heap T) (p n : Nat) : Except Fault (Heap T) :=
  match h.block p with
  | none => .error .undefined_behavior
  | some b =>
    if b.slots = n then
      .ok { h with block := fun q => if q = p then none else h.block q,
                   log := h.log ++ [Event.dealloc p n] }
    else .error .undefined_behavior

/-- Cell `i` of the block `b` at `p` becomes `c`; the event `e` is logged. -/
def Heap.store (h : Heap T) (p : Nat) (b : Block T) (i : Nat) (c : Option T) (e : Event) : Heap T :=
  { h with block := fun q => if q = p then
                      some { b with cell := fun j => if j = i then c else b.cell j }
                    else h.block q,
           log := h.log ++ [e] }

/-- Source: `new (&p[i]) ValueType(v)`: placement construction in cell `i` of block `p`. -/
def Heap.construct (h : Heap T) (p i : Nat) (v : T) : Except Fault (Heap T) :=
  match h.block p with
  | none => .error .undefined_behavior
  | some b =>
    if i < b.slots then .ok (h.store p b i (some v) (Event.construct p i))
    else .error .undefined_behavior

/-- Source: `p[i]`: reads the live object in cell `i` of block `p`. -/
def Heap.read (h : Heap T) (p i : Nat) : Except Fault T :=
  match h.block p with
  | none => .error .undefined_behavior
  | some b =>
    if i < b.slots then
      match b.cell i with
      | none => .error .undefined_behavior
      | some v => .ok v
    else .error .undefined_behavior

/-- Source: `p[i].~ValueType()`: ends the lifetime of the object in cell `i` of block `p`. -/
def Heap.destroy (h : Heap T) (p i : Nat) : Except Fault (Heap T) :=
  match h.block p with
  | none => .error .undefined_behavior
  | some b =>
    if i < b.slots then
      match b.cell i with
      | none => .error .undefined_behavior
      | some _ => .ok (h.store p b i none (Event.destruct p i))
    else .error .undefined_behavior

/-- Source: `for (SizeType i = lo; i < lo + k; ++i) body(i)` on a threaded state. -/
def forRange {σ : Type} (body : Nat → σ → Except Fault σ) : Nat → Nat → σ → Except Fault σ
  | 0, _, st => .ok st
  | k + 1, i, st =>
    match body i st with
    | .error e => .error e
    | .ok st1 => forRange body k (i + 1) st1

/-- The data members of `Stack<T>`. -/
structure Stack where
  m_Container : Nat
  m_Size : Nat
  m_Capacity : Nat
  deriving DecidableEq

/-- Source: `static const SizeType INITIAL_CAPACITY = 1;` -/
def INITIAL_CAPACITY : Nat := 1

/-- Source: `Stack()`: the default constructor. -/
def Stack.Stack_default (h : Heap T) : Heap T × Stack :=
  let r := h.operator_new INITIAL_CAPACITY
  (r.1, { m_Container := r.2, m_Size := 0, m_Capacity := INITIAL_CAPACITY })

/-- Body of the copy loops: `new (&dst[i]) ValueType(src[i])`. -/
def copyCell (src dst : Nat) (i : Nat) (h : Heap T) : Except Fault (Heap T) :=
  match h.read src i with
  | .error e => .error e
  | .ok v => h.construct dst i v

/-- Source: `Stack(const Stack& other)`: the copy constructor. -/
def Stack.Stack_copy (h : Heap T) (other : Stack) : Except Fault (Heap T × Stack) :=
  let r := h.operator_new other.m_Capacity
  let this : Stack :=
    { m_Container := r.2, m_Size := other.m_Size, m_Capacity := other.m_Capacity }
  match forRange (copyCell other.m_Container this.m_Container) this.m_Size 0 r.1 with
  | .error e => .error e
  | .ok h1 => .ok (h1, this)

/-- Source: `Stack(Stack&& other)`, statement by statement.  The source
    initialises the pointer `m_Container` with the integer `other.m_Capacity`
    and stores the pointer returned by `::operator new` in the integer
    `other.m_Capacity`; both are kept as written, an address being its number.
    The result is the heap, the new object and the argument. -/
def Stack.Stack_move (h : Heap T) (other : Stack) : Heap T × Stack × Stack :=
  let this : Stack :=
    { m_Container := other.m_Capacity, m_Size := other.m_Size, m_Capacity := other.m_Capacity }
  let r := h.operator_new INITIAL_CAPACITY
  let o1 : Stack := { other with m_Capacity := r.2 }
  let o2 : Stack := { o1 with m_Size := 0 }
  let o3 : Stack := { o2 with m_Capacity := INITIAL_CAPACITY }
  (r.1, this, o3)

/-- Source: `bool Empty() const` -/
def Stack.Empty (s : Stack) : Bool := s.m_Size == 0

/-- Source: `SizeType Size() const` -/
def Stack.Size (s : Stack) : Nat := s.m_Size

/-- Source: `SizeType Capacity() const` -/
def Stack.Capacity (s : Stack) : Nat := s.m_Capacity

/-- Source: `ConstReference Peak() const`: `m_Container[m_Size - 1]`, the subtraction
    wrapping when `m_Size` is 0. -/
def Stack.Peak (h : Heap T) (s : Stack) : Except Fault T :=
  h.read s.m_Container ((s.m_Size + SIZE_MOD - 1) % SIZE_MOD)

/-- Body of the loop of `Reallocate`: move-construct `newContainer[i]` from
    `m_Container[i]`, then destroy `m_Container[i]`. -/
def relocateCell (old newContainer : Nat) (i : Nat) (h : Heap T) : Except Fault (Heap T) :=
  match h.read old i with
  | .error e => .error e
  | .ok v =>
    match h.construct newContainer i v with
    | .error e => .error e
    | .ok h1 => h1.destroy old i

/-- Source: `void Reallocate(SizeType newCapacity)` under an allocator that
    grants the request, the byte count being the exact product;
    `Stack.Reallocate_outcome` is the same function with the allocator, the
    wrapping byte count and the state at a throw made explicit. -/
def Stack.Reallocate (h : Heap T) (s : Stack) (newCapacity : Nat) :
    Except Fault (Heap T × Stack) :=
  if newCapacity ≤ s.m_Capacity then .error .invalid_argument
  else
    let r := h.operator_new newCapacity
    match forRange (relocateCell s.m_Container r.2) s.m_Size 0 r.1 with
    | .error e => .error e
    | .ok h1 =>
      match h1.operator_delete s.m_Container s.m_Capacity with
      | .error e => .error e
      | .ok h2 => .ok (h2, { s with m_Container := r.2, m_Capacity := newCapacity })

/-- Source: `void Push(const ValueType& value)` called with a reference to an
    object that is not a cell of the heap (a local, a temporary) and holds
    `value`; `Stack.Push_ref` is the same function for an arbitrary
    reference. -/
def Stack.Push (h : Heap T) (s : Stack) (value : T) : Except Fault (Heap T × Stack) :=
  match (if s.m_Size ≥ s.m_Capacity then Stack.Reallocate h s (s.m_Capacity * 2 % SIZE_MOD)
         else .ok (h, s)) with
  | .error e => .error e
  | .ok (h1, s1) =>
    match h1.construct s1.m_Container s1.m_Size value with
    | .error e => .error e
    | .ok h2 => .ok (h2, { s1 with m_Size := (s1.m_Size + 1) % SIZE_MOD })

/-- Source: `void Push(ValueType&& value)`: the element is move-constructed from the
    argument, which lives outside the stack. -/
def Stack.Push_move (h : Heap T) (s : Stack) (value : T) : Except Fault (Heap T × Stack) :=
  match (if s.m_Size ≥ s.m_Capacity then Stack.Reallocate h s (s.m_Capacity * 2 % SIZE_MOD)
         else .ok (h, s)) with
  | .error e => .error e
  | .ok (h1, s1) =>
    match h1.construct s1.m_Container s1.m_Size value with
    | .error e => .error e
    | .ok h2 => .ok (h2, { s1 with m_Size := (s1.m_Size + 1) % SIZE_MOD })

/-- Source: `void Pop()` -/
def Stack.Pop (h : Heap T) (s : Stack) : Except Fault (Heap T × Stack) :=
  if s.m_Size = 0 then .ok (h, s)
  else
    let s1 : Stack := { s with m_Size := s.m_Size - 1 }
    match h.destroy s1.m_Container s1.m_Size with
    | .error e => .error e
    | .ok h1 => .ok (h1, s1)

/-- Source: `void Clear()` -/
def Stack.Clear (h : Heap T) (s : Stack) : Except Fault (Heap T × Stack) :=
  match forRange (fun i hh => hh.destroy s.m_Container i) s.m_Size 0 h with
  | .error e => .error e
  | .ok h1 => .ok (h1, { s with m_Size := 0 })

/-- Source: `~Stack() { Clear(); }` -/
def Stack.destructor (h : Heap T) (s : Stack) : Except Fault (Heap T × Stack) :=
  Stack.Clear h s

/-- The argument of an assignment operator: a reference to the assignee
    itself (`this == &other`) or to a distinct object. -/
inductive Ref where
  | self
  | distinct (other : Stack)

/-- Source: `Stack& operator=(const Stack& other)` -/
def Stack.operator_assign_copy (h : Heap T) (this : Stack) (other : Ref) :
    Except Fault (Heap T × Stack) :=
  match other with
  | .self => .ok (h, this)
  | .distinct other =>
    match Stack.Clear h this with
    | .error e => .error e
    | .ok (h1, s1) =>
      match h1.operator_delete s1.m_Container s1.m_Capacity with
      | .error e => .error e
      | .ok h2 =>
        let r := h2.operator_new other.m_Capacity
        let s2 : Stack :=
          { m_Container := r.2, m_Size := other.m_Size, m_Capacity := other.m_Capacity }
        match forRange (copyCell other.m_Container s2.m_Container) s2.m_Size 0 r.1 with
        | .error e => .error e
        | .ok h3 => .ok (h3, s2)

/-- Source: `Stack& operator=(Stack&& other)`, statement by statement.  The source
    stores the integer `other.m_Capacity` in the pointer `m_Container` and the
    pointer returned by `::operator new` in the integer `other.m_Capacity`;
    both are kept as written, an address being its number.  The result is the
    heap, the assignee and the argument. -/
def Stack.operator_assign_move (h : Heap T) (this : Stack) (other : Ref) :
    Heap T × Stack × Option Stack :=
  match other with
  | .self => (h, this, none)
  | .distinct other =>
    let s1 : Stack := { this with m_Container := other.m_Capacity }
    let s2 : Stack := { s1 with m_Size := other.m_Size }
    let s3 : Stack := { s2 with m_Capacity := other.m_Capacity }
    let r := h.operator_new INITIAL_CAPACITY
    let o1 : Stack := { other with m_Capacity := r.2 }
    let o2 : Stack := { o1 with m_Size := 0 }
    let o3 : Stack := { o2 with m_Capacity := INITIAL_CAPACITY }
    (r.1, s3, some o3)

/-- In heap `h` the stack `s` is a valid object whose live elements, bottom
    first, are `l`: its block is allocated with `m_Capacity` cells, cell `i`
    holds `l[i]` for `i < m_Size` and is raw beyond, `1 ≤ m_Capacity`, and the
    members are `std::size_t` values. -/
def Models (h : Heap T) (s : Stack) (l : List T) : Prop :=
  l.length = s.m_Size ∧ s.m_Size ≤ s.m_Capacity ∧ 1 ≤ s.m_Capacity ∧ s.m_Capacity < SIZE_MOD ∧
  s.m_Container < h.fresh ∧
  ∃ b, h.block s.m_Container = some b ∧ b.slots = s.m_Capacity ∧ ∀ i, b.cell i = l[i]?

/-- Blocks other than `p` that exist in `h` are the same in `h1`, and no
    address handed out in `h` is handed out again. -/
def Frame (h h1 : Heap T) (p : Nat) : Prop :=
  h.fresh ≤ h1.fresh ∧ ∀ q, q ≠ p → q < h.fresh → h1.block q = h.block q

/-- State of the heap inside the loop of `Reallocate` once the cells below `j`
    have been relocated from the block of `s` to the block at `h.fresh`. -/
def RelocInv (h : Heap T) (s : Stack) (n : Nat) (l : List T) (j : Nat) (hh : Heap T) : Prop :=
  hh.fresh = h.fresh + 1 ∧
  (∃ bo, hh.block s.m_Container = some bo ∧ bo.slots = s.m_Capacity ∧
      ∀ i, bo.cell i = if i < j then none else l[i]?) ∧
  (∃ bn, hh.block h.fresh = some bn ∧ bn.slots = n ∧
      ∀ i, bn.cell i = if i < j then l[i]? else none) ∧
  ∀ q, q ≠ s.m_Container → q ≠ h.fresh → hh.block q = h.block q

/-- State of the heap inside the loop of `Clear` once the cells below `j` have
    been destroyed. -/
def ClearInv (h : Heap T) (s : Stack) (l : List T) (j : Nat) (hh : Heap T) : Prop :=
  hh.fresh = h.fresh ∧
  hh.log = h.log ++ (List.range j).map (fun i => Event.destruct s.m_Container i) ∧
  (∃ b, hh.block s.m_Container = some b ∧ b.slots = s.m_Capacity ∧
      ∀ i, b.cell i = if i < j then none else l[i]?) ∧
  ∀ q, q ≠ s.m_Container → hh.block q = h.block q

/-- State of the heap inside a copy loop once the cells below `j` of the block
    at `dst` have been copy-constructed from `l`. -/
def CopyInv (h : Heap T) (dst cap : Nat) (l : List T) (j : Nat) (hh : Heap T) : Prop :=
  hh.fresh = h.fresh ∧
  (∃ bn, hh.block dst = some bn ∧ bn.slots = cap ∧
      ∀ i, bn.cell i = if i < j then l[i]? else none) ∧
  ∀ q, q ≠ dst → hh.block q = h.block q

/-- One operation of a test sequence. -/
inductive Op (T : Type) where
  | push (v : T)
  | pop

/-- Whether the operation is a `Push`. -/
def Op.isPush : Op T → Bool
  | Op.push _ => true
  | Op.pop => false

/-- The size recurrence: `Push` adds 1, `Pop` subtracts 1 clamped at 0. -/
def sizeRec : List (Op T) → Nat → Nat
  | [], n => n
  | Op.push _ :: ops, n => sizeRec ops (n + 1)
  | Op.pop :: ops, n => sizeRec ops (n - 1)

/-- The contents after a sequence of operations on a stack holding `l`,
    bottom first. -/
def applyOps : List (Op T) → List T → List T
  | [], l => l
  | Op.push v :: ops, l => applyOps ops (l ++ [v])
  | Op.pop :: ops, l => applyOps ops l.dropLast

/-- A stack under test: the heap, the object, the number of pushes executed
    and the number of pops executed while the stack was not empty. -/
structure RunState (T : Type) where
  heap : Heap T
  stack : Stack
  pushes : Nat
  pops : Nat

/-- Source: `Stack<T> s;` in heap `h`, nothing executed yet. -/
def RunState.init (h : Heap T) : RunState T :=
  { heap := (Stack.Stack_default h).1, stack := (Stack.Stack_default h).2, pushes := 0, pops := 0 }

/-- Executes the operations in order on the stack. -/
def runOps : List (Op T) → RunState T → Except Fault (RunState T)
  | [], st => .ok st
  | Op.push v :: ops, st =>
    match Stack.Push st.heap st.stack v with
    | .error e => .error e
    | .ok (h1, s1) =>
      runOps ops { heap := h1, stack := s1, pushes := st.pushes + 1, pops := st.pops }
  | Op.pop :: ops, st =>
    match Stack.Pop st.heap st.stack with
    | .error e => .error e
    | .ok (h1, s1) =>
      runOps ops { heap := h1, stack := s1, pushes := st.pushes,
                   pops := if st.stack.Empty then st.pops else st.pops + 1 }

/-- A heap holding two stack buffers: one cell at address 0 holding `7`, and
    two cells at address 1 holding `10` and `20`. -/
def demoHeap : Heap Nat :=
  { block := fun q =>
      if q = 0 then some { slots := 1, cell := fun j => if j = 0 then some 7 else none }
      else if q = 1 then
        some { slots := 2, cell := fun j => if j = 0 then some 10 else if j = 1 then some 20 else none }
      else none,
    fresh := 2,
    log := [] }

/-- The stack object owning the block at address 0 of `demoHeap`: full, size 1. -/
def demoStack : Stack := { m_Container := 0, m_Size := 1, m_Capacity := 1 }

/-- The stack object owning the block at address 1 of `demoHeap`: full, size 2. -/
def demoStack2 : Stack := { m_Container := 1, m_Size := 2, m_Capacity := 2 }

/-- Stack objects obtainable from default construction by `Push` (either
    overload), `Pop`, `Clear`, copy construction and copy assignment, each
    step run in an arbitrary heap and returning normally. -/
inductive Reachable (T : Type) : Stack → Prop where
  | default (h : Heap T) : Reachable T (Stack.Stack_default h).2
  | push (h : Heap T) (s : Stack) (v : T) (h1 : Heap T) (s1 : Stack) :
      Reachable T s → Stack.Push h s v = .ok (h1, s1) → Reachable T s1
  | push_move (h : Heap T) (s : Stack) (v : T) (h1 : Heap T) (s1 : Stack) :
      Reachable T s → Stack.Push_move h s v = .ok (h1, s1) → Reachable T s1
  | pop (h : Heap T) (s : Stack) (h1 : Heap T) (s1 : Stack) :
      Reachable T s → Stack.Pop h s = .ok (h1, s1) → Reachable T s1
  | clear (h : Heap T) (s : Stack) (h1 : Heap T) (s1 : Stack) :
      Reachable T s → Stack.Clear h s = .ok (h1, s1) → Reachable T s1
  | copy (h : Heap T) (a : Stack) (h1 : Heap T) (b : Stack) :
      Reachable T a → Stack.Stack_copy h a = .ok (h1, b) → Reachable T b
  | assign_copy (h : Heap T) (t a : Stack) (h1 : Heap T) (t1 : Stack) :
      Reachable T t → Reachable T a →
      Stack.operator_assign_copy h t (Ref.distinct a) = .ok (h1, t1) → Reachable T t1

/-- The scenario `Stack<int> a; Stack<int> t; t.Push(10); t.Push(20); t = a;`
    in an empty heap: `Capacity()` of `t` before and after the assignment. -/
def capacityAcrossCopyAssign : Except Fault (Nat × Nat) :=
  let ra := Stack.Stack_default (Heap.empty Nat)
  let rt := Stack.Stack_default ra.1
  match Stack.Push rt.1 rt.2 10 with
  | .error e => .error e
  | .ok (h1, t1) =>
    match Stack.Push h1 t1 20 with
    | .error e => .error e
    | .ok (h2, t2) =>
      match Stack.operator_assign_copy h2 t2 (Ref.distinct ra.2) with
      | .error e => .error e
      | .ok (_, t3) => .ok (t2.Capacity, t3.Capacity)

/-- The scenario `Stack<int> a; Stack<int> t; t.Push(10); t.Push(20);
    t = std::move(a);` in an empty heap: `Capacity()` of `t` before and after
    the assignment. -/
def capacityAcrossMoveAssign : Except Fault (Nat × Nat) :=
  let ra := Stack.Stack_default (Heap.empty Nat)
  let rt := Stack.Stack_default ra.1
  match Stack.Push rt.1 rt.2 10 with
  | .error e => .error e
  | .ok (h1, t1) =>
    match Stack.Push h1 t1 20 with
    | .error e => .error e
    | .ok (h2, t2) =>
      .ok (t2.Capacity, (Stack.operator_assign_move h2 t2 (Ref.distinct ra.2)).2.1.Capacity)

/-- Postcondition of a push of `v` that took the stack `s` in heap `h` to `s1`
    in heap `h1`. -/
def PushPost (h : Heap T) (s : Stack) (v : T) (h1 : Heap T) (s1 : Stack) : Prop :=
  s1.Size = s.Size + 1 ∧
  h1.read s1.m_Container s.Size = .ok v ∧
  (∀ i, i < s.Size → h1.read s1.m_Container i = h.read s.m_Container i) ∧
  s1.Capacity = (if s.Size = s.Capacity then 2 * s.Capacity else s.Capacity)

/-- Postcondition of a copy of the stack `a` of heap `h` that produced the
    stack `b` and the heap `h1`: same size, capacity and elements, `a` still
    reads the same, the buffers differ, and no sequence of pushes and pops on
    one of the two changes what the other holds. -/
def CopyPost (h : Heap T) (a : Stack) (h1 : Heap T) (b : Stack) : Prop :=
  b.Size = a.Size ∧ b.Capacity = a.Capacity ∧
  (∀ i, i < a.Size → h1.read b.m_Container i = h.read a.m_Container i) ∧
  (∀ i, i < a.Size → h1.read a.m_Container i = h.read a.m_Container i) ∧
  b.m_Container ≠ a.m_Container ∧
  (∀ ops st, runOps ops { heap := h1, stack := b, pushes := 0, pops := 0 } = .ok st →
    ∀ i, i < a.Size → st.heap.read a.m_Container i = h.read a.m_Container i) ∧
  (∀ ops st, runOps ops { heap := h1, stack := a, pushes := 0, pops := 0 } = .ok st →
    ∀ i, i < b.Size → st.heap.read b.m_Container i = h1.read b.m_Container i)

/-- A free store with nothing allocated whose first block will be at address
    `base`. -/
def Heap.startingAt (T : Type) (base : Nat) : Heap T :=
  { block := fun _ => none, fresh := base, log := [] }

/-- Number of cells of the block allocated at `p`, if there is one. -/
def Heap.slotsAt (h : Heap T) (p : Nat) : Option Nat :=
  match h.block p with
  | none => none
  | some b => some b.slots

/-- Whether the event is a placement construction. -/
def Event.isConstruct : Event → Bool
  | Event.construct _ _ => true
  | _ => false

/-- Whether the event is a destructor call. -/
def Event.isDestruct : Event → Bool
  | Event.destruct _ _ => true
  | _ => false

/-- Whether the event is an allocation. -/
def Event.isAlloc : Event → Bool
  | Event.alloc _ _ => true
  | _ => false

/-- Whether the event is a deallocation. -/
def Event.isDealloc : Event → Bool
  | Event.dealloc _ _ => true
  | _ => false

/-- The scenario `Stack<int> a; a.Push(10); a.Push(20);` in an empty heap whose
    addresses start at 4096: the heap and `a`. -/
def sourceWithTwo : Except Fault (Heap Nat × Stack) :=
  let r := Stack.Stack_default (Heap.startingAt Nat 4096)
  match Stack.Push r.1 r.2 10 with
  | .error e => .error e
  | .ok (h1, a1) => Stack.Push h1 a1 20

/-- The scenario of `sourceWithTwo` followed by `Stack<int> t; t.Push(7);`:
    the heap, `a` and `t`. -/
def sourceAndTarget : Except Fault (Heap Nat × Stack × Stack) :=
  match sourceWithTwo with
  | .error e => .error e
  | .ok (h, a) =>
    let r := Stack.Stack_default h
    match Stack.Push r.1 r.2 7 with
    | .error e => .error e
    | .ok (h1, t) => .ok (h1, a, t)

/-- The scenario `Stack<int> t; t.Push(7); Stack<int> a; t = std::move(a);`
    followed by the destruction of `t` and of `a`, in an empty heap whose
    addresses start at 4096: the numbers of element constructions and of
    element destructions logged over the whole run. -/
def lifetimesAcrossMoveAssign : Except Fault (Nat × Nat) :=
  let rt := Stack.Stack_default (Heap.startingAt Nat 4096)
  match Stack.Push rt.1 rt.2 7 with
  | .error e => .error e
  | .ok (h1, t1) =>
    let ra := Stack.Stack_default h1
    match Stack.operator_assign_move ra.1 t1 (Ref.distinct ra.2) with
    | (_, _, none) => .error Fault.undefined_behavior
    | (h2, t2, some a2) =>
      match Stack.destructor h2 t2 with
      | .error e => .error e
      | .ok (h3, _) =>
        match Stack.destructor h3 a2 with
        | .error e => .error e
        | .ok (h4, _) =>
          .ok (h4.log.countP Event.isConstruct, h4.log.countP Event.isDestruct)

/-- The scenario `{ Stack<int> s; s.Push(7); }` in an empty heap whose
    addresses start at 4096: the heap after the destructor has run, and the
    address of the buffer `s` owned. -/
def scopeExit : Except Fault (Heap Nat × Nat) :=
  let r := Stack.Stack_default (Heap.startingAt Nat 4096)
  match Stack.Push r.1 r.2 7 with
  | .error e => .error e
  | .ok (h1, s1) =>
    match Stack.destructor h1 s1 with
    | .error e => .error e
    | .ok (h2, s2) => .ok (h2, s2.m_Container)

/-- The events logged by the loop of `Reallocate` for the first `j` cells:
    for each index, the move-construction in the new block and the destruction
    in the old one. -/
def relocLog (old newContainer : Nat) : Nat → List Event
  | 0 => []
  | j + 1 => relocLog old newContainer j ++
      [Event.construct newContainer j, Event.destruct old j]

/-- The capacities observed while the values are pushed in order: `Capacity()`
    before each `Push` and after the last one. -/
def capacityTrace : List T → Heap T → Stack → Except Fault (List Nat)
  | [], _, s => .ok [s.Capacity]
  | v :: vs, h, s =>
    match Stack.Push h s v with
    | .error e => .error e
    | .ok (h1, s1) =>
      match capacityTrace vs h1 s1 with
      | .error e => .error e
      | .ok cs => .ok (s.Capacity :: cs)

/-- State of a stack that has only been pushed onto since its default
    construction, `evs` being the events logged since then: the capacity is
    `2 ^ k`, more than half of it is in use once it has grown, `2 ^ k - 1`
    elements have been relocated in `k` reallocations, and every other
    construction is that of a pushed element. -/
def GrowthInv (h : Heap T) (s : Stack) (evs : List Event) (k : Nat) : Prop :=
  (∃ l, Models h s l) ∧ s.m_Capacity = 2 ^ k ∧ (k = 0 ∨ 2 ^ (k - 1) < s.m_Size) ∧
  evs.countP Event.isDestruct + 1 = 2 ^ k ∧
  evs.countP Event.isDealloc = k ∧
  evs.countP Event.isAlloc = k ∧
  evs.countP Event.isConstruct = s.m_Size + evs.countP Event.isDestruct


/-- What a `const ValueType&` argument refers to: an object that is not a cell
    of the heap (a local, a temporary) and holds `v`, or cell `i` of the block
    at `p`. -/
inductive ValueRef (T : Type) where
  | outside (v : T)
  | element (p i : Nat)

/-- Reads through a reference: the value of an outside object, or the live
    object in the cell referred to. -/
def Heap.deref (h : Heap T) : ValueRef T → Except Fault T
  | ValueRef.outside v => .ok v
  | ValueRef.element p i => h.read p i

/-- Source: `ConstReference Peak() const`, the reference it returns:
    `m_Container[m_Size - 1]`, the subtraction wrapping when `m_Size` is 0. -/
def Stack.Peak_ref (T : Type) (s : Stack) : ValueRef T :=
  ValueRef.element s.m_Container ((s.m_Size + SIZE_MOD - 1) % SIZE_MOD)

/-- Source: `void Push(const ValueType& value)`.  The argument is a reference;
    `ValueType(value)` reads through it in the placement construction, which
    comes after `Reallocate` when the stack is full. -/
def Stack.Push_ref (h : Heap T) (s : Stack) (value : ValueRef T) :
    Except Fault (Heap T × Stack) :=
  match (if s.m_Size ≥ s.m_Capacity then Stack.Reallocate h s (s.m_Capacity * 2 % SIZE_MOD)
         else .ok (h, s)) with
  | .error e => .error e
  | .ok (h1, s1) =>
    match h1.deref value with
    | .error e => .error e
    | .ok v =>
      match h1.construct s1.m_Container s1.m_Size v with
      | .error e => .error e
      | .ok h2 => .ok (h2, { s1 with m_Size := (s1.m_Size + 1) % SIZE_MOD })

/-- The statements `s.Push(value); s.Pop();`. -/
def pushThenPop (h : Heap T) (s : Stack) (value : ValueRef T) : Except Fault (Heap T × Stack) :=
  match Stack.Push_ref h s value with
  | .error e => .error e
  | .ok (h1, s1) => Stack.Pop h1 s1

/-- The argument of one `Push` call: an lvalue, which binds to
    `Push(const ValueType&)`, or an rvalue, which binds to `Push(ValueType&&)`;
    in both cases an object outside the heap holding `v`. -/
inductive PushArg (T : Type) where
  | lvalue (v : T)
  | rvalue (v : T)

/-- The value the argument holds. -/
def PushArg.value : PushArg T → T
  | PushArg.lvalue v => v
  | PushArg.rvalue v => v

/-- Exceptions that leave `Reallocate`. -/
inductive Exn where
  | invalid_argument
  | bad_alloc
  deriving DecidableEq

/-- How a call ends: it returns, it throws with the heap and the object as
    they are at the throw, or its behaviour is undefined. -/
inductive Outcome (T : Type) where
  | returned (h : Heap T) (s : Stack)
  | threw (e : Exn) (h : Heap T) (s : Stack)
  | undefined

/-- The exception a call ended with, if it threw. -/
def Outcome.exception : Outcome T → Option Exn
  | Outcome.returned _ _ => none
  | Outcome.threw e _ _ => some e
  | Outcome.undefined => none

/-- The outcome of a call made in heap `h` on object `s` that the idealised
    embedding gives as `r`: an `invalid_argument` error is the throw of the
    guard, raised before anything is changed. -/
def Outcome.ofExcept (h : Heap T) (s : Stack) : Except Fault (Heap T × Stack) → Outcome T
  | .ok (h1, s1) => Outcome.returned h1 s1
  | .error Fault.invalid_argument => Outcome.threw Exn.invalid_argument h s
  | .error Fault.undefined_behavior => Outcome.undefined

/-- Source: `::operator delete(p, bytes)`: releases the block at `p`, whose size
    in bytes has to be the one given. -/
def Heap.operator_delete_bytes (h : Heap T) (sizeofT p bytes : Nat) : Except Fault (Heap T) :=
  match h.block p with
  | none => .error .undefined_behavior
  | some b =>
    if b.slots * sizeofT = bytes then
      .ok { h with block := fun q => if q = p then none else h.block q,
                   log := h.log ++ [Event.dealloc p b.slots] }
    else .error .undefined_behavior

/-- Source: `void Reallocate(SizeType newCapacity)` with the allocator explicit.
    `sizeofT` is `sizeof(T)`; the byte counts `newCapacity * sizeof(T)` and
    `m_Capacity * sizeof(T)` are `std::size_t` products, reduced modulo
    `SIZE_MOD`; `::operator new(bytes)` returns a block of `bytes / sizeofT`
    whole cells when `grants bytes` and throws `std::bad_alloc` otherwise. -/
def Stack.Reallocate_outcome (sizeofT : Nat) (grants : Nat → Bool) (h : Heap T) (s : Stack)
    (newCapacity : Nat) : Outcome T :=
  if newCapacity ≤ s.m_Capacity then Outcome.threw Exn.invalid_argument h s
  else
    if grants (newCapacity * sizeofT % SIZE_MOD) = false then Outcome.threw Exn.bad_alloc h s
    else
      let r := h.operator_new (newCapacity * sizeofT % SIZE_MOD / sizeofT)
      match forRange (relocateCell s.m_Container r.2) s.m_Size 0 r.1 with
      | .error _ => Outcome.undefined
      | .ok h1 =>
        match h1.operator_delete_bytes sizeofT s.m_Container
            (s.m_Capacity * sizeofT % SIZE_MOD) with
        | .error _ => Outcome.undefined
        | .ok h2 =>
          Outcome.returned h2 { s with m_Container := r.2, m_Capacity := newCapacity }

/-- An allocator that grants a request exactly when it is at most `PTRDIFF_MAX`
    bytes. -/
def grantsUpToPtrdiffMax (bytes : Nat) : Bool := decide (bytes ≤ 2 ^ 63 - 1)


/-! ## Heap and loop lemmas -/

theorem forRange_inv {σ : Type} (body : Nat → σ → Except Fault σ) (P : Nat → σ → Prop) :
    ∀ (k i : Nat) (st : σ), P i st →
      (∀ j st1, i ≤ j → j < i + k → P j st1 → ∃ st2, body j st1 = .ok st2 ∧ P (j + 1) st2) →
      ∃ st2, forRange body k i st = .ok st2 ∧ P (i + k) st2 := by
  intro k
  induction k with
  | zero => intro i st h0 _; exact ⟨st, rfl, by simpa using h0⟩
  | succ k ih =>
    intro i st h0 hstep
    obtain ⟨st1, hb, hP⟩ := hstep i st (Nat.le_refl i) (by omega) h0
    obtain ⟨st2, hr, hP2⟩ := ih (i + 1) st1 hP (fun j s1 hij hjk hPj => hstep j s1 (by omega) (by omega) hPj)
    refine ⟨st2, ?_, ?_⟩
    · simp [forRange, hb, hr]
    · have : i + (k + 1) = i + 1 + k := by omega
      rw [this]; exact hP2

@[simp] theorem store_block_same (h : Heap T) (p : Nat) (b : Block T) (i : Nat) (c : Option T)
    (e : Event) :
    (h.store p b i c e).block p = some { b with cell := fun j => if j = i then c else b.cell j } := by
  simp [Heap.store]

theorem store_block_ne (h : Heap T) (p : Nat) (b : Block T) (i : Nat) (c : Option T)
    (e : Event) {q : Nat} (hq : q ≠ p) : (h.store p b i c e).block q = h.block q := by
  simp [Heap.store, hq]

@[simp] theorem store_fresh (h : Heap T) (p : Nat) (b : Block T) (i : Nat) (c : Option T)
    (e : Event) : (h.store p b i c e).fresh = h.fresh := rfl

@[simp] theorem store_log (h : Heap T) (p : Nat) (b : Block T) (i : Nat) (c : Option T)
    (e : Event) : (h.store p b i c e).log = h.log ++ [e] := rfl

theorem read_of_block {h : Heap T} {p i : Nat} {b : Block T} {v : T}
    (hb : h.block p = some b) (hi : i < b.slots) (hc : b.cell i = some v) :
    h.read p i = .ok v := by
  simp [Heap.read, hb, hi, hc]

theorem construct_of_block {h : Heap T} {p i : Nat} {b : Block T} (v : T)
    (hb : h.block p = some b) (hi : i < b.slots) :
    h.construct p i v = .ok (h.store p b i (some v) (Event.construct p i)) := by
  simp [Heap.construct, hb, hi]

theorem destroy_of_block {h : Heap T} {p i : Nat} {b : Block T} {v : T}
    (hb : h.block p = some b) (hi : i < b.slots) (hc : b.cell i = some v) :
    h.destroy p i = .ok (h.store p b i none (Event.destruct p i)) := by
  simp [Heap.destroy, hb, hi, hc]

theorem Models.read {h : Heap T} {s : Stack} {l : List T} (hm : Models h s l)
    (i : Nat) (hi : i < l.length) : h.read s.m_Container i = .ok l[i] := by
  obtain ⟨hl, hsc, _, _, _, b, hb, hs, hc⟩ := hm
  exact read_of_block hb (by omega) (by rw [hc i]; exact List.getElem?_eq_getElem hi)

theorem Models.frame {h h1 : Heap T} {s : Stack} {l : List T} {p : Nat}
    (hm : Models h s l) (hf : Frame h h1 p) (hp : s.m_Container ≠ p) : Models h1 s l := by
  obtain ⟨hl, hsc, h1c, hlt, hfr, b, hb, hs, hc⟩ := hm
  refine ⟨hl, hsc, h1c, hlt, by have := hf.1; omega, b, ?_, hs, hc⟩
  rw [hf.2 _ hp hfr]; exact hb

theorem relocateCell_step {h : Heap T} {s : Stack} {n : Nat} {l : List T} {j : Nat} {hh : Heap T}
    (hne : s.m_Container ≠ h.fresh) (hjl : j < l.length) (hjc : j < s.m_Capacity) (hjn : j < n)
    (hinv : RelocInv h s n l j hh) :
    ∃ h2, relocateCell s.m_Container h.fresh j hh = .ok h2 ∧ RelocInv h s n l (j + 1) h2 := by
  obtain ⟨hfr, ⟨bo, hbo, hso, hco⟩, ⟨bn, hbn, hsn, hcn⟩, hrest⟩ := hinv
  have hcj : bo.cell j = some l[j] := by
    rw [hco j]; simp [List.getElem?_eq_getElem hjl]
  have hne2 : h.fresh ≠ s.m_Container := fun e => hne e.symm
  have e1 := read_of_block hbo (by omega) hcj
  have e2 := construct_of_block l[j] hbn (by omega : j < bn.slots)
  have hbo2 : (hh.store h.fresh bn j (some l[j]) (Event.construct h.fresh j)).block s.m_Container
      = some bo := by rw [store_block_ne _ _ _ _ _ _ hne]; exact hbo
  have e3 := destroy_of_block hbo2 (by omega) hcj
  refine ⟨_, by simp only [relocateCell, e1, e2]; exact e3, ?_⟩
  refine ⟨by simp [hfr], ⟨_, store_block_same _ _ _ _ _ _, hso, ?_⟩,
    ⟨{ bn with cell := fun i => if i = j then some l[j] else bn.cell i }, ?_, hsn, ?_⟩, ?_⟩
  · intro i
    by_cases hij : i = j
    · subst hij; simp
    · simp only [hij, if_false, hco i]
      by_cases hlt : i < j
      · simp [hlt, show i < j + 1 by omega]
      · simp [hlt, show ¬ i < j + 1 by omega]
  · rw [store_block_ne _ _ _ _ _ _ hne2]; exact store_block_same _ _ _ _ _ _
  · intro i
    by_cases hij : i = j
    · subst hij; simp [List.getElem?_eq_getElem hjl]
    · simp only [hij, if_false, hcn i]
      by_cases hlt : i < j
      · simp [hlt, show i < j + 1 by omega]
      · simp [hlt, show ¬ i < j + 1 by omega]
  · intro q hq1 hq2
    rw [store_block_ne _ _ _ _ _ _ hq1, store_block_ne _ _ _ _ _ _ hq2]; exact hrest q hq1 hq2

theorem getElem?_append_singleton (l : List T) (v : T) (i : Nat) :
    (l ++ [v])[i]? = if i = l.length then some v else l[i]? := by
  by_cases h1 : i < l.length
  · rw [List.getElem?_append_left h1]; simp [Nat.ne_of_lt h1]
  · by_cases h2 : i = l.length
    · subst h2; simp
    · rw [List.getElem?_eq_none (by simp; omega), List.getElem?_eq_none (by omega)]; simp [h2]

theorem Reallocate_spec {h : Heap T} {s : Stack} {l : List T} {n : Nat}
    (hm : Models h s l) (hn : s.m_Capacity < n) (hn2 : n < SIZE_MOD) :
    ∃ h1, Stack.Reallocate h s n = .ok (h1, { s with m_Container := h.fresh, m_Capacity := n }) ∧
      Models h1 { s with m_Container := h.fresh, m_Capacity := n } l ∧
      Frame h h1 s.m_Container ∧ h1.fresh = h.fresh + 1 ∧ h1.block s.m_Container = none := by
  obtain ⟨hl, hsc, h1c, hlt, hfr, b, hb, hs, hc⟩ := hm
  have hne : s.m_Container ≠ h.fresh := by omega
  have hne2 : h.fresh ≠ s.m_Container := fun e => hne e.symm
  have h0 : RelocInv h s n l 0 (h.operator_new n).1 := by
    refine ⟨rfl, ⟨b, by simp [Heap.operator_new, hne, hb], hs, by simpa using hc⟩,
      ⟨{ slots := n, cell := fun _ => none }, by simp [Heap.operator_new], rfl, by simp⟩, ?_⟩
    intro q _ hq2
    simp [Heap.operator_new, hq2]
  obtain ⟨h1, hloop, hinv⟩ := forRange_inv (relocateCell s.m_Container h.fresh)
    (fun j hh => RelocInv h s n l j hh) s.m_Size 0 _ h0
    (fun j st1 _ hj hP => relocateCell_step hne (by omega) (by omega) (by omega) hP)
  obtain ⟨hfr1, ⟨bo, hbo, hso, _⟩, ⟨bn, hbn, hsn, hcn⟩, hrest⟩ := hinv
  refine ⟨{ h1 with block := fun q => if q = s.m_Container then none else h1.block q,
                    log := h1.log ++ [Event.dealloc s.m_Container s.m_Capacity] }, ?_, ?_, ?_, ?_, ?_⟩
  · have hnle : ¬ n ≤ s.m_Capacity := by omega
    simp only [Stack.Reallocate, hnle, if_false]
    have : (h.operator_new n).2 = h.fresh := rfl
    simp only [this, hloop, Heap.operator_delete, hbo, hso, if_true]
  · refine ⟨hl, by simp only; omega, by simp only; omega, hn2, by simp only; omega, bn, ?_, hsn, ?_⟩
    · simp only [hne2, if_false]; exact hbn
    · intro i
      rw [hcn i]
      by_cases hi : i < 0 + s.m_Size
      · simp only [hi, if_true]
      · simp only [hi, if_false]; exact (List.getElem?_eq_none (by omega)).symm
  · refine ⟨by simp only; omega, ?_⟩
    intro q hq1 hq2
    simp only [hq1, if_false]
    exact hrest q hq1 (by omega)
  · simpa using hfr1
  · simp

theorem Frame.refl (h : Heap T) (p : Nat) : Frame h h p :=
  ⟨Nat.le_refl _, fun _ _ _ => rfl⟩

theorem Frame.store (h : Heap T) (p : Nat) (b : Block T) (i : Nat) (c : Option T) (e : Event) :
    Frame h (h.store p b i c e) p :=
  ⟨Nat.le_refl _, fun _ hq _ => store_block_ne _ _ _ _ _ _ hq⟩

theorem Frame.trans {h h1 h2 : Heap T} {p p1 : Nat} (hf : Frame h h1 p) (hg : Frame h1 h2 p1)
    (hp : p1 = p ∨ h.fresh ≤ p1) : Frame h h2 p := by
  refine ⟨Nat.le_trans hf.1 hg.1, ?_⟩
  intro q hq hlt
  have hq1 : q ≠ p1 := by
    rcases hp with hp | hp
    · rw [hp]; exact hq
    · omega
  rw [hg.2 q hq1 (Nat.lt_of_lt_of_le hlt hf.1), hf.2 q hq hlt]

theorem construct_top {h : Heap T} {s : Stack} {l : List T} (v : T)
    (hm : Models h s l) (hlt : s.m_Size < s.m_Capacity) :
    ∃ h1, h.construct s.m_Container s.m_Size v = .ok h1 ∧
      Models h1 { s with m_Size := (s.m_Size + 1) % SIZE_MOD } (l ++ [v]) ∧
      (s.m_Size + 1) % SIZE_MOD = s.m_Size + 1 ∧
      Frame h h1 s.m_Container ∧ h1.fresh = h.fresh ∧
      h1.log = h.log ++ [Event.construct s.m_Container s.m_Size] := by
  obtain ⟨hl, hsc, h1c, hcl, hfr, b, hb, hs, hc⟩ := hm
  have hmod : (s.m_Size + 1) % SIZE_MOD = s.m_Size + 1 := Nat.mod_eq_of_lt (by omega)
  refine ⟨_, construct_of_block v hb (by omega), ?_, hmod, Frame.store _ _ _ _ _ _, rfl, rfl⟩
  refine ⟨by simp [hmod, hl], by simp only [hmod]; omega, h1c, hcl, hfr, _,
    store_block_same _ _ _ _ _ _, hs, ?_⟩
  intro i
  simp only [getElem?_append_singleton, hl, hc i]

theorem Push_spec {h : Heap T} {s : Stack} {l : List T} (v : T) (hm : Models h s l)
    (hg : s.m_Size = s.m_Capacity → s.m_Capacity < s.m_Capacity * 2 % SIZE_MOD) :
    ∃ h1 s1, Stack.Push h s v = .ok (h1, s1) ∧ Models h1 s1 (l ++ [v]) ∧
      s1.m_Size = s.m_Size + 1 ∧
      s1.m_Capacity
        = (if s.m_Size = s.m_Capacity then s.m_Capacity * 2 % SIZE_MOD else s.m_Capacity) ∧
      s1.m_Container = (if s.m_Size = s.m_Capacity then h.fresh else s.m_Container) ∧
      Frame h h1 s.m_Container := by
  have hsc : s.m_Size ≤ s.m_Capacity := hm.2.1
  by_cases hlt : s.m_Size < s.m_Capacity
  · obtain ⟨h1, hc, hm1, hmod, hf, _, _⟩ := construct_top v hm hlt
    have hge : ¬ s.m_Size ≥ s.m_Capacity := by omega
    have hne : s.m_Size ≠ s.m_Capacity := by omega
    refine ⟨h1, _, ?_, hm1, hmod, by simp [hne], by simp [hne], hf⟩
    simp only [Stack.Push, hge, if_false, hc]
  · have heq : s.m_Size = s.m_Capacity := by omega
    have hgr := hg heq
    have hmodlt : s.m_Capacity * 2 % SIZE_MOD < SIZE_MOD := Nat.mod_lt _ (by simp [SIZE_MOD])
    obtain ⟨h1, hr, hm1, hf1, hfr1, _⟩ := Reallocate_spec hm hgr hmodlt
    obtain ⟨h2, hc, hm2, hmod, hf2, _, _⟩ := construct_top v hm1 (by simp only; omega)
    have hge : s.m_Size ≥ s.m_Capacity := by omega
    refine ⟨h2, _, ?_, hm2, hmod, by simp only [heq, if_true], by simp [heq],
      Frame.trans hf1 hf2 (Or.inr (Nat.le_refl _))⟩
    simp only [Stack.Push, hge, if_true, hr]
    simp only at hc
    simp only [hc]

theorem Push_fault {h : Heap T} {s : Stack} (v : T) (heq : s.m_Capacity ≤ s.m_Size)
    (hw : s.m_Capacity * 2 % SIZE_MOD ≤ s.m_Capacity) :
    Stack.Push h s v = .error Fault.invalid_argument := by
  have hge : s.m_Size ≥ s.m_Capacity := heq
  simp only [Stack.Push, hge, if_true, Stack.Reallocate, hw]

theorem Push_ok_inv {h : Heap T} {s : Stack} {l : List T} {v : T} {h1 : Heap T} {s1 : Stack}
    (hm : Models h s l) (hp : Stack.Push h s v = .ok (h1, s1)) :
    Models h1 s1 (l ++ [v]) ∧ s1.m_Size = s.m_Size + 1 ∧ s.m_Capacity ≤ s1.m_Capacity ∧
      Frame h h1 s.m_Container ∧
      (s1.m_Container = s.m_Container ∨ (h.fresh ≤ s1.m_Container ∧ s1.m_Container < h1.fresh)) := by
  have hg : s.m_Size = s.m_Capacity → s.m_Capacity < s.m_Capacity * 2 % SIZE_MOD := by
    intro heq
    by_contra hcon
    rw [Push_fault v (by omega) (by omega)] at hp
    cases hp
  obtain ⟨h2, s2, hp2, hm2, hsz, hcap, hcont, hf⟩ := Push_spec v hm hg
  rw [hp2] at hp
  cases hp
  refine ⟨hm2, hsz, ?_, hf, ?_⟩
  · rw [hcap]; split
    · rename_i heq; have := hg heq; omega
    · exact Nat.le_refl _
  · have hlt := hm2.2.2.2.2.1
    by_cases heq : s.m_Size = s.m_Capacity
    · simp only [heq, if_true] at hcont
      right; rw [hcont] at hlt ⊢; exact ⟨Nat.le_refl _, hlt⟩
    · simp only [heq, if_false] at hcont
      left; exact hcont

theorem Push_move_eq (h : Heap T) (s : Stack) (v : T) :
    Stack.Push_move h s v = Stack.Push h s v := rfl

theorem Stack_default_spec (h : Heap T) :
    Models (Stack.Stack_default h).1 (Stack.Stack_default h).2 ([] : List T) ∧
      (Stack.Stack_default h).2 = { m_Container := h.fresh, m_Size := 0, m_Capacity := 1 } ∧
      Frame h (Stack.Stack_default h).1 h.fresh := by
  refine ⟨⟨rfl, by simp [Stack.Stack_default], by simp [Stack.Stack_default, INITIAL_CAPACITY],
    by simp [Stack.Stack_default, INITIAL_CAPACITY, SIZE_MOD],
    by simp [Stack.Stack_default, Heap.operator_new],
    { slots := 1, cell := fun _ => none }, by simp [Stack.Stack_default, Heap.operator_new, INITIAL_CAPACITY],
    rfl, by simp⟩, rfl, ?_⟩
  refine ⟨by simp [Stack.Stack_default, Heap.operator_new], ?_⟩
  intro q hq _
  simp [Stack.Stack_default, Heap.operator_new, hq]

theorem getElem?_dropLast (l : List T) (i : Nat) :
    l.dropLast[i]? = if i = l.length - 1 then none else l[i]? := by
  by_cases h1 : i < l.length - 1
  · have h2 : i < l.dropLast.length := by simpa using h1
    rw [List.getElem?_eq_getElem h2, List.getElem_dropLast, List.getElem?_eq_getElem (by omega)]
    simp [Nat.ne_of_lt h1]
  · rw [List.getElem?_eq_none (by simp; omega)]
    by_cases h2 : i = l.length - 1
    · simp [h2]
    · simp only [h2, if_false]; exact (List.getElem?_eq_none (by omega)).symm

theorem Pop_empty (h : Heap T) (s : Stack) (h0 : s.m_Size = 0) : Stack.Pop h s = .ok (h, s) := by
  simp [Stack.Pop, h0]

theorem Pop_spec {h : Heap T} {s : Stack} {l : List T} (hm : Models h s l) (hne : s.m_Size ≠ 0) :
    ∃ h1, Stack.Pop h s = .ok (h1, { s with m_Size := s.m_Size - 1 }) ∧
      Models h1 { s with m_Size := s.m_Size - 1 } l.dropLast ∧
      Frame h h1 s.m_Container ∧ h1.fresh = h.fresh ∧
      h1.log = h.log ++ [Event.destruct s.m_Container (s.m_Size - 1)] := by
  obtain ⟨hl, hsc, h1c, hcl, hfr, b, hb, hs, hc⟩ := hm
  have hlast : b.cell (s.m_Size - 1) = some (l.get ⟨s.m_Size - 1, by omega⟩) := by
    rw [hc]; exact List.getElem?_eq_getElem (by omega)
  have hd := destroy_of_block hb (by omega : s.m_Size - 1 < b.slots) hlast
  refine ⟨h.store s.m_Container b (s.m_Size - 1) none (Event.destruct s.m_Container (s.m_Size - 1)),
    ?_, ?_, Frame.store _ _ _ _ _ _, rfl, rfl⟩
  · simp only [Stack.Pop, hne, if_false, hd]
  · refine ⟨by simp [hl], by simp only; omega, h1c, hcl, hfr, _, store_block_same _ _ _ _ _ _, hs, ?_⟩
    intro i
    simp only [getElem?_dropLast, hl, hc i]

theorem Peak_spec {h : Heap T} {s : Stack} {l : List T} (hm : Models h s l) (hne : l ≠ []) :
    Stack.Peak h s = .ok (l.getLast hne) := by
  have hpos : 0 < l.length := List.length_pos.mpr hne
  have hl : l.length = s.m_Size := hm.1
  have hlt : s.m_Size < SIZE_MOD := by have := hm.2.1; have := hm.2.2.2.1; omega
  have hidx : (s.m_Size + SIZE_MOD - 1) % SIZE_MOD = l.length - 1 := by
    have : s.m_Size + SIZE_MOD - 1 = (s.m_Size - 1) + SIZE_MOD := by omega
    rw [this, Nat.add_mod_right, Nat.mod_eq_of_lt (by omega), hl]
  rw [Stack.Peak, hidx, hm.read (l.length - 1) (by omega), List.getLast_eq_getElem]

theorem Pop_ok_inv {h : Heap T} {s : Stack} {l : List T} {h1 : Heap T} {s1 : Stack}
    (hm : Models h s l) (hp : Stack.Pop h s = .ok (h1, s1)) :
    Models h1 s1 l.dropLast ∧ s1.m_Size = s.m_Size - 1 ∧ s1.m_Capacity = s.m_Capacity ∧
      Frame h h1 s.m_Container ∧ s1.m_Container = s.m_Container := by
  by_cases h0 : s.m_Size = 0
  · rw [Pop_empty h s h0] at hp
    cases hp
    have hnil : l = [] := List.length_eq_zero.mp (by rw [hm.1, h0])
    subst hnil
    exact ⟨hm, by omega, rfl, Frame.refl _ _, rfl⟩
  · obtain ⟨h2, hp2, hm2, hf, _, _⟩ := Pop_spec hm h0
    rw [hp2] at hp
    cases hp
    exact ⟨hm2, rfl, rfl, hf, rfl⟩

theorem ite_lt_succ_none (l : List T) (b : Block T) (j : Nat)
    (hco : ∀ i, b.cell i = if i < j then none else l[i]?) (i : Nat) :
    (if i = j then none else b.cell i) = if i < j + 1 then none else l[i]? := by
  by_cases hij : i = j
  · subst hij; simp
  · simp only [hij, if_false, hco i]
    by_cases hlt : i < j
    · simp [hlt, show i < j + 1 by omega]
    · simp [hlt, show ¬ i < j + 1 by omega]

theorem ite_lt_succ_some (l : List T) (b : Block T) (j : Nat) (hjl : j < l.length)
    (hcn : ∀ i, b.cell i = if i < j then l[i]? else none) (i : Nat) :
    (if i = j then some l[j] else b.cell i) = if i < j + 1 then l[i]? else none := by
  by_cases hij : i = j
  · subst hij; simp [List.getElem?_eq_getElem hjl]
  · simp only [hij, if_false, hcn i]
    by_cases hlt : i < j
    · simp [hlt, show i < j + 1 by omega]
    · simp [hlt, show ¬ i < j + 1 by omega]

theorem Clear_step {h : Heap T} {s : Stack} {l : List T} {j : Nat} {hh : Heap T}
    (hjl : j < l.length) (hjc : j < s.m_Capacity) (hinv : ClearInv h s l j hh) :
    ∃ h2, hh.destroy s.m_Container j = .ok h2 ∧ ClearInv h s l (j + 1) h2 := by
  obtain ⟨hfr, hlog, ⟨b, hb, hs, hc⟩, hrest⟩ := hinv
  have hcj : b.cell j = some l[j] := by
    rw [hc j]; simp [List.getElem?_eq_getElem hjl]
  refine ⟨_, destroy_of_block hb (by omega) hcj, hfr, ?_, ⟨_, store_block_same _ _ _ _ _ _, hs,
    ite_lt_succ_none l b j hc⟩, ?_⟩
  · simp [hlog, List.range_succ]
  · intro q hq
    rw [store_block_ne _ _ _ _ _ _ hq]; exact hrest q hq

theorem Clear_spec {h : Heap T} {s : Stack} {l : List T} (hm : Models h s l) :
    ∃ h1, Stack.Clear h s = .ok (h1, { s with m_Size := 0 }) ∧
      Models h1 { s with m_Size := 0 } ([] : List T) ∧
      Frame h h1 s.m_Container ∧ h1.fresh = h.fresh ∧
      h1.log = h.log ++ (List.range s.m_Size).map (fun i => Event.destruct s.m_Container i) := by
  obtain ⟨hl, hsc, h1c, hcl, hfr, b, hb, hs, hc⟩ := hm
  have h0 : ClearInv h s l 0 h := ⟨rfl, by simp, ⟨b, hb, hs, by simpa using hc⟩, fun _ _ => rfl⟩
  obtain ⟨h1, hloop, hfr1, hlog1, ⟨b1, hb1, hs1, hc1⟩, hrest⟩ :=
    forRange_inv (fun i hh => hh.destroy s.m_Container i)
      (fun j hh => ClearInv h s l j hh) s.m_Size 0 h h0
      (fun j st1 _ hj hP => Clear_step (by omega) (by omega) hP)
  refine ⟨h1, by simp only [Stack.Clear, hloop], ?_, ⟨by omega, fun q hq _ => hrest q hq⟩, hfr1, ?_⟩
  · refine ⟨rfl, Nat.zero_le _, h1c, hcl, by simp only; omega, b1, hb1, hs1, ?_⟩
    intro i
    rw [hc1 i]
    by_cases hi : i < 0 + s.m_Size
    · simp only [hi, if_true]; rfl
    · simp only [hi, if_false]; rw [List.getElem?_eq_none (by omega)]; rfl
  · simpa using hlog1

theorem Clear_empty (h : Heap T) (s : Stack) (h0 : s.m_Size = 0) : Stack.Clear h s = .ok (h, s) := by
  cases s with
  | mk p n c =>
    simp only at h0
    subst h0
    rfl

theorem copyCell_step {h : Heap T} {src dst cap : Nat} {l : List T} {j : Nat} {hh : Heap T}
    {b : Block T} (hne : src ≠ dst) (hb : h.block src = some b) (hs : b.slots = cap)
    (hc : ∀ i, b.cell i = l[i]?) (hjl : j < l.length) (hjc : j < cap)
    (hinv : CopyInv h dst cap l j hh) :
    ∃ h2, copyCell src dst j hh = .ok h2 ∧ CopyInv h dst cap l (j + 1) h2 := by
  obtain ⟨hfr, ⟨bn, hbn, hsn, hcn⟩, hrest⟩ := hinv
  have hb2 : hh.block src = some b := by rw [hrest src hne]; exact hb
  have hcj : b.cell j = some l[j] := by
    rw [hc j]; exact List.getElem?_eq_getElem hjl
  have e1 := read_of_block hb2 (by omega) hcj
  have e2 := construct_of_block l[j] hbn (by omega : j < bn.slots)
  refine ⟨hh.store dst bn j (some l[j]) (Event.construct dst j),
    by simp only [copyCell, e1]; exact e2, hfr,
    ⟨{ bn with cell := fun i => if i = j then some l[j] else bn.cell i },
      store_block_same _ _ _ _ _ _, hsn, ite_lt_succ_some l bn j hjl hcn⟩, ?_⟩
  intro q hq
  rw [store_block_ne _ _ _ _ _ _ hq]; exact hrest q hq

theorem copy_into_new {h : Heap T} {a : Stack} {l : List T} (hm : Models h a l) :
    ∃ h1, forRange (copyCell a.m_Container h.fresh) a.m_Size 0 (h.operator_new a.m_Capacity).1
        = .ok h1 ∧
      Models h1 { m_Container := h.fresh, m_Size := a.m_Size, m_Capacity := a.m_Capacity } l ∧
      h1.fresh = h.fresh + 1 ∧ ∀ q, q ≠ h.fresh → h1.block q = h.block q := by
  obtain ⟨hl, hsc, h1c, hcl, hfr, b, hb, hs, hc⟩ := hm
  have hne : a.m_Container ≠ h.fresh := by omega
  have hb0 : (h.operator_new a.m_Capacity).1.block a.m_Container = some b := by
    simp [Heap.operator_new, hne, hb]
  have h0 : CopyInv (h.operator_new a.m_Capacity).1 h.fresh a.m_Capacity l 0
      (h.operator_new a.m_Capacity).1 :=
    ⟨rfl, ⟨{ slots := a.m_Capacity, cell := fun _ => none }, by simp [Heap.operator_new], rfl,
      by simp⟩, fun _ _ => rfl⟩
  obtain ⟨h1, hloop, hfr1, ⟨bn, hbn, hsn, hcn⟩, hrest⟩ :=
    forRange_inv (copyCell a.m_Container h.fresh)
      (fun j hh => CopyInv (h.operator_new a.m_Capacity).1 h.fresh a.m_Capacity l j hh)
      a.m_Size 0 _ h0
      (fun j st1 _ hj hP => copyCell_step hne hb0 hs hc (by omega) (by omega) hP)
  refine ⟨h1, hloop, ⟨hl, hsc, h1c, hcl, by simp only; rw [hfr1]; simp [Heap.operator_new], bn, hbn,
    hsn, ?_⟩, by rw [hfr1]; rfl, ?_⟩
  · intro i
    rw [hcn i]
    by_cases hi : i < 0 + a.m_Size
    · simp only [hi, if_true]
    · simp only [hi, if_false]; exact (List.getElem?_eq_none (by omega)).symm
  · intro q hq
    rw [hrest q hq]; simp [Heap.operator_new, hq]

theorem Stack_copy_spec {h : Heap T} {a : Stack} {l : List T} (hm : Models h a l) :
    ∃ h1, Stack.Stack_copy h a
        = .ok (h1, { m_Container := h.fresh, m_Size := a.m_Size, m_Capacity := a.m_Capacity }) ∧
      Models h1 { m_Container := h.fresh, m_Size := a.m_Size, m_Capacity := a.m_Capacity } l ∧
      Models h1 a l ∧ Frame h h1 h.fresh := by
  obtain ⟨h1, hloop, hm1, hfr1, hrest⟩ := copy_into_new hm
  have hf : Frame h h1 h.fresh := ⟨by omega, fun q hq _ => hrest q hq⟩
  have hne : a.m_Container ≠ h.fresh := by have := hm.2.2.2.2.1; omega
  refine ⟨h1, ?_, hm1, hm.frame hf hne, hf⟩
  have : (h.operator_new a.m_Capacity).2 = h.fresh := rfl
  simp only [Stack.Stack_copy, this, hloop]

theorem operator_delete_spec {h : Heap T} {s : Stack} {l : List T} (hm : Models h s l) :
    ∃ h1, h.operator_delete s.m_Container s.m_Capacity = .ok h1 ∧
      Frame h h1 s.m_Container ∧ h1.fresh = h.fresh ∧ h1.block s.m_Container = none := by
  obtain ⟨_, _, _, _, _, b, hb, hs, _⟩ := hm
  refine ⟨{ h with block := fun q => if q = s.m_Container then none else h.block q,
                   log := h.log ++ [Event.dealloc s.m_Container s.m_Capacity] }, ?_,
    ⟨Nat.le_refl _, fun q hq _ => by simp [hq]⟩, rfl, by simp⟩
  simp only [Heap.operator_delete, hb, hs, if_true]

theorem operator_assign_copy_spec {h : Heap T} {t a : Stack} {lt la : List T}
    (ht : Models h t lt) (ha : Models h a la) (hne : t.m_Container ≠ a.m_Container) :
    ∃ h1, Stack.operator_assign_copy h t (Ref.distinct a)
        = .ok (h1, { m_Container := h.fresh, m_Size := a.m_Size, m_Capacity := a.m_Capacity }) ∧
      Models h1 { m_Container := h.fresh, m_Size := a.m_Size, m_Capacity := a.m_Capacity } la ∧
      Models h1 a la ∧ Frame h h1 t.m_Container ∧ h1.block t.m_Container = none := by
  obtain ⟨h1, hclear, hm1, hf1, hfr1, _⟩ := Clear_spec ht
  obtain ⟨h2, hdel, hf2, hfr2, hnone⟩ := operator_delete_spec hm1
  have hf12 : Frame h h2 t.m_Container := Frame.trans hf1 hf2 (Or.inl rfl)
  have ha2 : Models h2 a la := ha.frame hf12 (fun e => hne e.symm)
  have hfresh : h2.fresh = h.fresh := by rw [hfr2, hfr1]
  obtain ⟨h3, hloop, hm3, hfr3, hrest⟩ := copy_into_new ha2
  rw [hfresh] at hloop hm3 hrest
  have htlt : t.m_Container < h.fresh := ht.2.2.2.2.1
  have hf3 : Frame h2 h3 h.fresh := ⟨by omega, fun q hq _ => hrest q hq⟩
  have halt : a.m_Container ≠ h.fresh := by have := ha.2.2.2.2.1; omega
  refine ⟨h3, ?_, hm3, ha2.frame hf3 halt, Frame.trans hf12 hf3 (Or.inr (Nat.le_refl _)), ?_⟩
  · have hnew : (h2.operator_new a.m_Capacity).2 = h.fresh := hfresh
    simp only [Stack.operator_assign_copy, hclear]
    simp only at hdel
    simp only [hdel, hnew, hloop]
  · rw [hrest _ (by omega)]; exact hnone

theorem runOps_spec (ops : List (Op T)) :
    ∀ (st : RunState T) (l : List T) (m : Nat), Models st.heap st.stack l →
      st.stack.m_Size ≤ m → st.stack.m_Capacity ≤ 2 * m + 1 → m + ops.length ≤ 2 ^ 63 →
      ∃ st1, runOps ops st = .ok st1 ∧ Models st1.heap st1.stack (applyOps ops l) ∧
        st1.stack.m_Size = sizeRec ops st.stack.m_Size ∧
        st1.stack.m_Size + st1.pops + st.pushes = st.stack.m_Size + st1.pushes + st.pops ∧
        st1.pushes = st.pushes + ops.countP Op.isPush ∧ st.pops ≤ st1.pops := by
  induction ops with
  | nil =>
    intro st l m hm _ _ _
    exact ⟨st, rfl, hm, rfl, by omega, by simp, Nat.le_refl _⟩
  | cons op ops ih =>
    intro st l m hm hsz hcap hlen
    have h1c : 1 ≤ st.stack.m_Capacity := hm.2.2.1
    simp only [List.length_cons] at hlen
    cases op with
    | push v =>
      have hg : st.stack.m_Size = st.stack.m_Capacity →
          st.stack.m_Capacity < st.stack.m_Capacity * 2 % SIZE_MOD := by
        intro heq
        rw [Nat.mod_eq_of_lt (by simp only [SIZE_MOD]; omega)]
        omega
      obtain ⟨h1, s1, hp, hm1, hs1, hc1, _, _⟩ := Push_spec v hm hg
      have hc1b : s1.m_Capacity ≤ 2 * (m + 1) + 1 := by
        rw [hc1]; split
        · rename_i heq
          rw [Nat.mod_eq_of_lt (by simp only [SIZE_MOD]; omega)]; omega
        · omega
      obtain ⟨st1, hr, hm2, hsz2, hbal, hpu, hpo⟩ :=
        ih { heap := h1, stack := s1, pushes := st.pushes + 1, pops := st.pops } (l ++ [v]) (m + 1)
          hm1 (by simp only; omega) hc1b (by omega)
      refine ⟨st1, by simp only [runOps, hp]; exact hr, hm2, ?_, ?_, ?_, hpo⟩
      · simp only [hs1] at hsz2; exact hsz2
      · simp only [hs1] at hbal; omega
      · simp only at hpu; simp [hpu, Op.isPush]; omega
    | pop =>
      obtain ⟨h1, s1, hp⟩ : ∃ h1 s1, Stack.Pop st.heap st.stack = .ok (h1, s1) := by
        by_cases h0 : st.stack.m_Size = 0
        · exact ⟨_, _, Pop_empty _ _ h0⟩
        · obtain ⟨h1, hp, _⟩ := Pop_spec hm h0
          exact ⟨_, _, hp⟩
      obtain ⟨hm1, hs1, hc1, _, _⟩ := Pop_ok_inv hm hp
      obtain ⟨st1, hr, hm2, hsz2, hbal, hpu, hpo⟩ :=
        ih { heap := h1, stack := s1, pushes := st.pushes,
             pops := if st.stack.Empty then st.pops else st.pops + 1 } l.dropLast (m + 1)
          hm1 (by simp only; omega) (by simp only; omega) (by omega)
      refine ⟨st1, by simp only [runOps, hp]; exact hr, hm2, ?_, ?_, ?_, ?_⟩
      · simp only [hs1] at hsz2; exact hsz2
      · simp only [hs1, Stack.Empty] at hbal
        by_cases h0 : st.stack.m_Size = 0
        · simp [h0] at hbal; omega
        · simp [h0] at hbal; omega
      · simp only at hpu; simp [hpu, Op.isPush]
      · simp only at hpo; split at hpo <;> omega

theorem Reallocate_fields {h : Heap T} {s : Stack} {n : Nat} {h1 : Heap T} {s1 : Stack}
    (hr : Stack.Reallocate h s n = .ok (h1, s1)) :
    s.m_Capacity < n ∧ s1 = { s with m_Container := h.fresh, m_Capacity := n } := by
  unfold Stack.Reallocate at hr
  split at hr
  · cases hr
  · rename_i hle
    simp only at hr
    split at hr
    · cases hr
    · split at hr
      · cases hr
      · injection hr with hr
        injection hr with _ hs
        exact ⟨by omega, by rw [← hs]; rfl⟩

theorem Push_fields {h : Heap T} {s : Stack} {v : T} {h1 : Heap T} {s1 : Stack}
    (hp : Stack.Push h s v = .ok (h1, s1)) :
    s1.m_Size = (s.m_Size + 1) % SIZE_MOD ∧
      ((s.m_Size < s.m_Capacity ∧ s1.m_Capacity = s.m_Capacity ∧
          s1.m_Container = s.m_Container) ∨
       (s.m_Capacity ≤ s.m_Size ∧ s.m_Capacity < s1.m_Capacity ∧
          s1.m_Capacity = s.m_Capacity * 2 % SIZE_MOD)) := by
  unfold Stack.Push at hp
  by_cases hge : s.m_Size ≥ s.m_Capacity
  · simp only [hge, if_true] at hp
    split at hp
    · cases hp
    · rename_i h2 s2 hr
      obtain ⟨hlt, hs2⟩ := Reallocate_fields hr
      split at hp
      · cases hp
      · injection hp with hp
        injection hp with _ hs
        subst hs2
        refine ⟨by rw [← hs], Or.inr ⟨hge, by rw [← hs]; exact hlt, by rw [← hs]⟩⟩
  · simp only [hge, if_false] at hp
    split at hp
    · cases hp
    · injection hp with hp
      injection hp with _ hs
      refine ⟨by rw [← hs], Or.inl ⟨by omega, by rw [← hs], by rw [← hs]⟩⟩

theorem Pop_fields {h : Heap T} {s : Stack} {h1 : Heap T} {s1 : Stack}
    (hp : Stack.Pop h s = .ok (h1, s1)) :
    s1 = { s with m_Size := s.m_Size - 1 } := by
  unfold Stack.Pop at hp
  split at hp
  · rename_i h0
    injection hp with hp
    injection hp with _ hs
    rw [← hs]
    cases s with
    | mk p n c => simp only at h0; subst h0; rfl
  · simp only at hp
    split at hp
    · cases hp
    · injection hp with hp
      injection hp with _ hs
      exact hs.symm

theorem Clear_fields {h : Heap T} {s : Stack} {h1 : Heap T} {s1 : Stack}
    (hc : Stack.Clear h s = .ok (h1, s1)) : s1 = { s with m_Size := 0 } := by
  unfold Stack.Clear at hc
  split at hc
  · cases hc
  · injection hc with hc
    injection hc with _ hs
    exact hs.symm

theorem Stack_copy_fields {h : Heap T} {a : Stack} {h1 : Heap T} {b : Stack}
    (hc : Stack.Stack_copy h a = .ok (h1, b)) :
    b = { m_Container := h.fresh, m_Size := a.m_Size, m_Capacity := a.m_Capacity } := by
  unfold Stack.Stack_copy at hc
  simp only at hc
  split at hc
  · cases hc
  · injection hc with hc
    injection hc with _ hs
    exact hs.symm

theorem operator_assign_copy_fields {h : Heap T} {t a : Stack} {h1 : Heap T} {t1 : Stack}
    (hc : Stack.operator_assign_copy h t (Ref.distinct a) = .ok (h1, t1)) :
    t1.m_Size = a.m_Size ∧ t1.m_Capacity = a.m_Capacity := by
  unfold Stack.operator_assign_copy at hc
  simp only at hc
  split at hc
  · cases hc
  · split at hc
    · cases hc
    · split at hc
      · cases hc
      · injection hc with hc
        injection hc with _ hs
        rw [← hs]; exact ⟨rfl, rfl⟩

/-! ## The claims -/

/-- C1: on a default-constructed stack every sequence of Push and Pop
    operations (of at most 2^63 operations, so that no capacity leaves the range
    of std::size_t) runs to completion, and Size() afterwards equals the number
    of pushes minus the number of pops executed on a non-empty stack, which is
    the value of the recurrence "Push adds 1, Pop subtracts 1 clamped at 0". -/
theorem C1_size_after_pushes_and_pops (h : Heap T) (ops : List (Op T))
    (hlen : ops.length ≤ 2 ^ 63) :
    ∃ st, runOps ops (RunState.init h) = .ok st ∧
      st.pushes = ops.countP Op.isPush ∧ st.pops ≤ st.pushes ∧
      st.stack.Size = st.pushes - st.pops ∧
      st.stack.Size = sizeRec ops 0 := by
  obtain ⟨st, hr, _, hsz, hbal, hpu, _⟩ :=
    runOps_spec ops (RunState.init h) [] 0 (Stack_default_spec h).1 (Nat.le_refl _)
      (by simp [RunState.init, Stack.Stack_default, INITIAL_CAPACITY]) (by omega)
  have hs0 : (RunState.init h).stack.m_Size = 0 := rfl
  have hp0 : (RunState.init h).pushes = 0 := rfl
  have hq0 : (RunState.init h).pops = 0 := rfl
  rw [hs0, hp0, hq0] at hbal
  rw [hp0] at hpu
  rw [hs0] at hsz
  refine ⟨st, hr, by omega, by omega, by simp only [Stack.Size]; omega, hsz⟩

/-- Concrete instance of the preceding theorem. -/
theorem C1_witness :
    ([Op.push 5, Op.pop, Op.pop, Op.push 7, Op.push 9] : List (Op Nat)).length ≤ 2 ^ 63 ∧
    ∃ st, runOps [Op.push 5, Op.pop, Op.pop, Op.push 7, Op.push 9]
        (RunState.init (Heap.empty Nat)) = .ok st ∧
      st.pushes = List.countP Op.isPush [Op.push 5, Op.pop, Op.pop, Op.push 7, Op.push 9] ∧
      st.pops ≤ st.pushes ∧ st.stack.Size = st.pushes - st.pops ∧
      st.stack.Size = sizeRec [Op.push 5, Op.pop, Op.pop, Op.push 7, Op.push 9] 0 :=
  ⟨by decide, C1_size_after_pushes_and_pops (Heap.empty Nat) _ (by decide)⟩

/-- Pushing a value that lives outside the buffer of the stack: on a valid
    stack (the doubled capacity a std::size_t value when the push has to grow)
    the call returns normally and Peak() then returns the value, with or
    without reallocation, for the by-copy and the by-move overload. -/
theorem Push_outside_then_Peak (h : Heap T) (s : Stack) (l : List T) (v : T)
    (hm : Models h s l) (hg : s.m_Size = s.m_Capacity → 2 * s.m_Capacity < SIZE_MOD) :
    (∃ h1 s1, Stack.Push h s v = .ok (h1, s1) ∧ Stack.Peak h1 s1 = .ok v) ∧
    (∃ h1 s1, Stack.Push_move h s v = .ok (h1, s1) ∧ Stack.Peak h1 s1 = .ok v) := by
  have hg2 : s.m_Size = s.m_Capacity → s.m_Capacity < s.m_Capacity * 2 % SIZE_MOD := by
    intro heq
    have := hg heq
    have h1c := hm.2.2.1
    rw [Nat.mod_eq_of_lt (by omega)]; omega
  obtain ⟨h1, s1, hp, hm1, _⟩ := Push_spec v hm hg2
  have hpk : Stack.Peak h1 s1 = .ok v := by
    rw [Peak_spec hm1 (by simp)]; simp
  exact ⟨⟨h1, s1, hp, hpk⟩, ⟨h1, s1, by rw [Push_move_eq]; exact hp, hpk⟩⟩

theorem demoStack_models : Models demoHeap demoStack [7] := by
  refine ⟨rfl, by decide, by decide, by decide, by decide, _, rfl, rfl, ?_⟩
  intro i
  cases i with
  | zero => rfl
  | succ n => simp

theorem demoStack2_models : Models demoHeap demoStack2 [10, 20] := by
  refine ⟨rfl, by decide, by decide, by decide, by decide, _, rfl, rfl, ?_⟩
  intro i
  match i with
  | 0 => rfl
  | 1 => rfl
  | n + 2 => simp

/-- Pushing a value that lives outside the buffer of the stack and popping it:
    on a valid stack both calls return normally and yield a stack with the same
    Size() and the same live elements at the indices below the size, in the
    same order; the capacity has not shrunk. -/
theorem Push_outside_then_Pop (h : Heap T) (s : Stack) (l : List T) (v : T)
    (hm : Models h s l) (hg : s.m_Size = s.m_Capacity → 2 * s.m_Capacity < SIZE_MOD) :
    ∃ h1 s1 h2 s2, Stack.Push h s v = .ok (h1, s1) ∧ Stack.Pop h1 s1 = .ok (h2, s2) ∧
      s2.Size = s.Size ∧
      (∀ i, i < s.Size → h2.read s2.m_Container i = h.read s.m_Container i) ∧
      Models h2 s2 l ∧ s.Capacity ≤ s2.Capacity := by
  have hg2 : s.m_Size = s.m_Capacity → s.m_Capacity < s.m_Capacity * 2 % SIZE_MOD := by
    intro heq
    have := hg heq
    have h1c := hm.2.2.1
    rw [Nat.mod_eq_of_lt (by omega)]; omega
  obtain ⟨h1, s1, hp, hm1, hs1, _⟩ := Push_spec v hm hg2
  obtain ⟨_, _, hcap, _⟩ := Push_ok_inv hm hp
  obtain ⟨h2, hpop, hm2, _⟩ := Pop_spec hm1 (by omega : s1.m_Size ≠ 0)
  rw [List.dropLast_concat] at hm2
  refine ⟨h1, s1, h2, _, hp, hpop, by simp [Stack.Size, hs1], ?_, hm2, hcap⟩
  intro i hi
  have hil : i < l.length := by rw [hm.1]; exact hi
  rw [hm2.read i hil, hm.read i hil]

/-- C5: Size() is at most Capacity() on a default-constructed stack; Push by
    copy, Push by move, Pop, Clear, copy construction and copy assignment
    preserve this whenever they return; hence it holds in every state reachable
    from default construction by those operations. -/
theorem C5_size_le_capacity_invariant :
    (∀ h : Heap T, (Stack.Stack_default h).2.Size ≤ (Stack.Stack_default h).2.Capacity) ∧
    (∀ (h : Heap T) (s : Stack) (v : T) (h1 : Heap T) (s1 : Stack), s.Size ≤ s.Capacity →
      Stack.Push h s v = .ok (h1, s1) → s1.Size ≤ s1.Capacity) ∧
    (∀ (h : Heap T) (s : Stack) (v : T) (h1 : Heap T) (s1 : Stack), s.Size ≤ s.Capacity →
      Stack.Push_move h s v = .ok (h1, s1) → s1.Size ≤ s1.Capacity) ∧
    (∀ (h : Heap T) (s : Stack) (h1 : Heap T) (s1 : Stack), s.Size ≤ s.Capacity →
      Stack.Pop h s = .ok (h1, s1) → s1.Size ≤ s1.Capacity) ∧
    (∀ (h : Heap T) (s : Stack) (h1 : Heap T) (s1 : Stack), s.Size ≤ s.Capacity →
      Stack.Clear h s = .ok (h1, s1) → s1.Size ≤ s1.Capacity) ∧
    (∀ (h : Heap T) (a : Stack) (h1 : Heap T) (b : Stack), a.Size ≤ a.Capacity →
      Stack.Stack_copy h a = .ok (h1, b) → b.Size ≤ b.Capacity) ∧
    (∀ (h : Heap T) (t a : Stack) (h1 : Heap T) (t1 : Stack), t.Size ≤ t.Capacity →
      a.Size ≤ a.Capacity →
      Stack.operator_assign_copy h t (Ref.distinct a) = .ok (h1, t1) → t1.Size ≤ t1.Capacity) ∧
    (∀ (h : Heap T) (t : Stack) (h1 : Heap T) (t1 : Stack), t.Size ≤ t.Capacity →
      Stack.operator_assign_copy h t Ref.self = .ok (h1, t1) → t1.Size ≤ t1.Capacity) ∧
    (∀ s : Stack, Reachable T s → 0 ≤ s.Size ∧ s.Size ≤ s.Capacity) := by
  have hpush : ∀ (h : Heap T) (s : Stack) (v : T) (h1 : Heap T) (s1 : Stack),
      s.Size ≤ s.Capacity → Stack.Push h s v = .ok (h1, s1) → s1.Size ≤ s1.Capacity := by
    intro h s v h1 s1 hle hp
    simp only [Stack.Size, Stack.Capacity] at hle ⊢
    obtain ⟨hsz, hcase⟩ := Push_fields hp
    have hmod : (s.m_Size + 1) % SIZE_MOD ≤ s.m_Size + 1 := Nat.mod_le _ _
    rcases hcase with ⟨hlt, hc, _⟩ | ⟨_, hlt, _⟩ <;> omega
  have hpop : ∀ (h : Heap T) (s : Stack) (h1 : Heap T) (s1 : Stack),
      s.Size ≤ s.Capacity → Stack.Pop h s = .ok (h1, s1) → s1.Size ≤ s1.Capacity := by
    intro h s h1 s1 hle hp
    simp only [Stack.Size, Stack.Capacity] at hle ⊢
    rw [Pop_fields hp]; simp only; omega
  have hclear : ∀ (h : Heap T) (s : Stack) (h1 : Heap T) (s1 : Stack),
      s.Size ≤ s.Capacity → Stack.Clear h s = .ok (h1, s1) → s1.Size ≤ s1.Capacity := by
    intro h s h1 s1 _ hc
    simp only [Stack.Size, Stack.Capacity]
    rw [Clear_fields hc]; exact Nat.zero_le _
  have hcopy : ∀ (h : Heap T) (a : Stack) (h1 : Heap T) (b : Stack), a.Size ≤ a.Capacity →
      Stack.Stack_copy h a = .ok (h1, b) → b.Size ≤ b.Capacity := by
    intro h a h1 b hle hc
    simp only [Stack.Size, Stack.Capacity] at hle ⊢
    rw [Stack_copy_fields hc]; exact hle
  have hassign : ∀ (h : Heap T) (t a : Stack) (h1 : Heap T) (t1 : Stack), t.Size ≤ t.Capacity →
      a.Size ≤ a.Capacity →
      Stack.operator_assign_copy h t (Ref.distinct a) = .ok (h1, t1) →
      t1.Size ≤ t1.Capacity := by
    intro h t a h1 t1 _ hle hc
    simp only [Stack.Size, Stack.Capacity] at hle ⊢
    obtain ⟨e1, e2⟩ := operator_assign_copy_fields hc
    omega
  refine ⟨fun h => by simp [Stack.Stack_default, Stack.Size], hpush, hpush, hpop, hclear, hcopy,
    hassign, ?_, ?_⟩
  · intro h t h1 t1 hle hc
    simp only [Stack.operator_assign_copy] at hc
    injection hc with hc
    injection hc with _ hs
    rw [← hs]; exact hle
  · intro s hr
    refine ⟨Nat.zero_le _, ?_⟩
    induction hr with
    | default h => simp [Stack.Stack_default, Stack.Size]
    | push h s v h1 s1 _ hp ih => exact hpush h s v h1 s1 ih hp
    | push_move h s v h1 s1 _ hp ih => exact hpush h s v h1 s1 ih hp
    | pop h s h1 s1 _ hp ih => exact hpop h s h1 s1 ih hp
    | clear h s h1 s1 _ hp ih => exact hclear h s h1 s1 ih hp
    | copy h a h1 b _ hp ih => exact hcopy h a h1 b ih hp
    | assign_copy h t a h1 t1 _ _ hp iht iha => exact hassign h t a h1 t1 iht iha hp

/-- Concrete instance of the preceding theorem. -/
theorem C5_witness :
    Reachable Nat { m_Container := 2, m_Size := 2, m_Capacity := 2 } ∧
    (0 ≤ Stack.Size { m_Container := 2, m_Size := 2, m_Capacity := 2 } ∧
      Stack.Size { m_Container := 2, m_Size := 2, m_Capacity := 2 }
        ≤ Stack.Capacity { m_Container := 2, m_Size := 2, m_Capacity := 2 }) :=
  have hr : Reachable Nat { m_Container := 2, m_Size := 2, m_Capacity := 2 } :=
    Reachable.push demoHeap demoStack 8 _ _
      (Reachable.push (Stack.Stack_default (Heap.empty Nat)).1
        (Stack.Stack_default (Heap.empty Nat)).2 7 _ _
        (Reachable.default (Heap.empty Nat)) rfl) rfl
  ⟨hr, (C5_size_le_capacity_invariant (T := Nat)).2.2.2.2.2.2.2.2 _ hr⟩

/-- C6 as stated fails: in the scenario of `capacityAcrossCopyAssign` the
    target of a copy assignment has capacity 2 before and capacity 1 after, and
    likewise for the move assignment of `capacityAcrossMoveAssign`. -/
theorem C6_counterexample_assignment_shrinks_capacity :
    capacityAcrossCopyAssign = .ok (2, 1) ∧ capacityAcrossMoveAssign = .ok (2, 1) :=
  ⟨rfl, rfl⟩

/-- C6 (amended): Capacity() never decreases under Push (either overload), Pop
    and Clear; the target of a copy assignment or move assignment from a
    distinct stack ends with exactly the capacity of the source, and a
    self-assignment leaves the capacity as it was. -/
theorem C6_capacity_under_each_operation :
    (∀ (h : Heap T) (s : Stack) (v : T) (h1 : Heap T) (s1 : Stack),
      Stack.Push h s v = .ok (h1, s1) → s.Capacity ≤ s1.Capacity) ∧
    (∀ (h : Heap T) (s : Stack) (v : T) (h1 : Heap T) (s1 : Stack),
      Stack.Push_move h s v = .ok (h1, s1) → s.Capacity ≤ s1.Capacity) ∧
    (∀ (h : Heap T) (s : Stack) (h1 : Heap T) (s1 : Stack),
      Stack.Pop h s = .ok (h1, s1) → s1.Capacity = s.Capacity) ∧
    (∀ (h : Heap T) (s : Stack) (h1 : Heap T) (s1 : Stack),
      Stack.Clear h s = .ok (h1, s1) → s1.Capacity = s.Capacity) ∧
    (∀ (h : Heap T) (t a : Stack) (h1 : Heap T) (t1 : Stack),
      Stack.operator_assign_copy h t (Ref.distinct a) = .ok (h1, t1) →
      t1.Capacity = a.Capacity) ∧
    (∀ (h : Heap T) (t : Stack) (h1 : Heap T) (t1 : Stack),
      Stack.operator_assign_copy h t Ref.self = .ok (h1, t1) → t1.Capacity = t.Capacity) ∧
    (∀ (h : Heap T) (t a : Stack),
      (Stack.operator_assign_move h t (Ref.distinct a)).2.1.Capacity = a.Capacity) ∧
    (∀ (h : Heap T) (t : Stack),
      (Stack.operator_assign_move h t Ref.self).2.1.Capacity = t.Capacity) := by
  have hpush : ∀ (h : Heap T) (s : Stack) (v : T) (h1 : Heap T) (s1 : Stack),
      Stack.Push h s v = .ok (h1, s1) → s.Capacity ≤ s1.Capacity := by
    intro h s v h1 s1 hp
    simp only [Stack.Capacity]
    obtain ⟨_, hcase⟩ := Push_fields hp
    rcases hcase with ⟨_, hc, _⟩ | ⟨_, hlt, _⟩ <;> omega
  refine ⟨hpush, hpush, ?_, ?_, ?_, ?_, fun _ _ _ => rfl, fun _ _ => rfl⟩
  · intro h s h1 s1 hp
    rw [Pop_fields hp]; rfl
  · intro h s h1 s1 hc
    rw [Clear_fields hc]; rfl
  · intro h t a h1 t1 hc
    exact (operator_assign_copy_fields hc).2
  · intro h t h1 t1 hc
    simp only [Stack.operator_assign_copy] at hc
    injection hc with hc
    injection hc with _ hs
    rw [← hs]

/-- Concrete instance of the preceding theorem. -/
theorem C6_witness :
    ∃ h1, Stack.Push demoHeap demoStack 8
        = .ok (h1, { m_Container := 2, m_Size := 2, m_Capacity := 2 }) ∧
      demoStack.Capacity ≤ Stack.Capacity { m_Container := 2, m_Size := 2, m_Capacity := 2 } :=
  ⟨_, rfl, (C6_capacity_under_each_operation (T := Nat)).1 demoHeap demoStack 8 _ _ rfl⟩

theorem PushPost_of_Push {h : Heap T} {s : Stack} {l : List T} {v : T}
    (hm : Models h s l) (hg : s.m_Size = s.m_Capacity → 2 * s.m_Capacity < SIZE_MOD) :
    ∃ h1 s1, Stack.Push h s v = .ok (h1, s1) ∧ PushPost h s v h1 s1 := by
  have h1c := hm.2.2.1
  have hw : s.m_Size = s.m_Capacity → s.m_Capacity * 2 % SIZE_MOD = 2 * s.m_Capacity := by
    intro heq
    have := hg heq
    rw [Nat.mod_eq_of_lt (by omega)]; omega
  obtain ⟨h1, s1, hp, hm1, hs1, hc1, _, _⟩ :=
    Push_spec v hm (fun heq => by rw [hw heq]; omega)
  refine ⟨h1, s1, hp, hs1, ?_, ?_, ?_⟩
  · have hlen : s.Size < (l ++ [v]).length := by simp [Stack.Size, hm.1]
    rw [hm1.read s.Size hlen]
    simp [Stack.Size, ← hm.1]
  · intro i hi
    have hil : i < l.length := by rw [hm.1]; exact hi
    rw [hm1.read i (by simp; omega), hm.read i hil, List.getElem_append_left hil]
  · simp only [Stack.Capacity, Stack.Size, hc1]
    by_cases heq : s.m_Size = s.m_Capacity
    · simp only [heq, if_true]; exact hw heq
    · simp only [heq, if_false]

/-- Postcondition of a push, by either overload, of a value that lives outside
    the buffer of the stack.  On a valid stack (the doubled capacity a
    std::size_t value when the stack is full) the call returns normally, the
    size is the old size plus one, the element at index old size is the value,
    every element below is unchanged and in the same position, and the capacity
    is exactly twice the old capacity if the stack was full and the old
    capacity otherwise. -/
theorem Push_outside_postcondition (h : Heap T) (s : Stack) (l : List T) (v : T)
    (hm : Models h s l) (hg : s.m_Size = s.m_Capacity → 2 * s.m_Capacity < SIZE_MOD) :
    (∃ h1 s1, Stack.Push h s v = .ok (h1, s1) ∧ PushPost h s v h1 s1) ∧
    (∃ h1 s1, Stack.Push_move h s v = .ok (h1, s1) ∧ PushPost h s v h1 s1) :=
  ⟨PushPost_of_Push hm hg, by rw [Push_move_eq]; exact PushPost_of_Push hm hg⟩

/-- C8: Pop on an empty stack returns normally and leaves the heap (no event is
    logged, so nothing is destroyed) and the object (size 0, capacity, buffer)
    exactly as they were; Pop on a valid non-empty stack returns normally,
    decrements the size by one, destroys exactly the element at index size-1,
    keeps the capacity and the buffer, and leaves every element below that
    index unchanged. -/
theorem C8_pop_contract (h : Heap T) (s : Stack) :
    (s.Size = 0 → Stack.Pop h s = .ok (h, s)) ∧
    (∀ l : List T, Models h s l → s.Size ≠ 0 →
      ∃ h1 s1, Stack.Pop h s = .ok (h1, s1) ∧
        s1.Size = s.Size - 1 ∧ s1.Capacity = s.Capacity ∧
        s1.m_Container = s.m_Container ∧
        h1.log = h.log ++ [Event.destruct s.m_Container (s.Size - 1)] ∧
        h1.read s.m_Container (s.Size - 1) = .error Fault.undefined_behavior ∧
        (∀ i, i < s.Size - 1 → h1.read s1.m_Container i = h.read s.m_Container i) ∧
        (∀ q, q ≠ s.m_Container → q < h.fresh → h1.block q = h.block q) ∧
        h1.fresh = h.fresh) := by
  refine ⟨fun h0 => Pop_empty h s h0, ?_⟩
  intro l hm hne
  obtain ⟨h1, hp, hm1, hf, hfr, hlog⟩ := Pop_spec hm hne
  refine ⟨h1, _, hp, rfl, rfl, rfl, hlog, ?_, ?_, hf.2, hfr⟩
  · obtain ⟨_, _, _, _, _, b, hb, hs, hc⟩ := hm1
    have hcell : b.cell (s.m_Size - 1) = none := by
      rw [hc]; exact List.getElem?_eq_none (by simp [hm.1])
    simp only at hb
    simp [Heap.read, Stack.Size, hb, hcell]
  · intro i hi
    simp only [Stack.Size] at hi
    have hl := hm.1
    rw [hm1.read i (by simp; omega), hm.read i (by omega), List.getElem_dropLast]

/-- Concrete instance of the preceding theorem. -/
theorem C8_witness :
    ((Stack.Stack_default (Heap.empty Nat)).2.Size = 0 ∧
      Stack.Pop (Stack.Stack_default (Heap.empty Nat)).1 (Stack.Stack_default (Heap.empty Nat)).2
        = .ok ((Stack.Stack_default (Heap.empty Nat)).1,
            (Stack.Stack_default (Heap.empty Nat)).2)) ∧
    (Models demoHeap demoStack2 [10, 20] ∧ demoStack2.Size ≠ 0 ∧
      ∃ h1 s1, Stack.Pop demoHeap demoStack2 = .ok (h1, s1) ∧
        s1.Size = demoStack2.Size - 1 ∧ s1.Capacity = demoStack2.Capacity ∧
        s1.m_Container = demoStack2.m_Container ∧
        h1.log = demoHeap.log ++ [Event.destruct demoStack2.m_Container (demoStack2.Size - 1)] ∧
        h1.read demoStack2.m_Container (demoStack2.Size - 1)
          = .error Fault.undefined_behavior ∧
        (∀ i, i < demoStack2.Size - 1 →
          h1.read s1.m_Container i = demoHeap.read demoStack2.m_Container i) ∧
        (∀ q, q ≠ demoStack2.m_Container → q < demoHeap.fresh →
          h1.block q = demoHeap.block q) ∧
        h1.fresh = demoHeap.fresh) :=
  ⟨⟨rfl, (C8_pop_contract (Stack.Stack_default (Heap.empty Nat)).1
      (Stack.Stack_default (Heap.empty Nat)).2).1 rfl⟩,
    demoStack2_models, by decide,
    (C8_pop_contract demoHeap demoStack2).2 [10, 20] demoStack2_models (by decide)⟩

/-- C9: on a valid stack Clear() returns normally, sets Size() to 0 (Empty() is
    true), keeps Capacity() and the buffer (same address, still allocated with
    the same number of cells; the only events are the destructions of the live
    elements, in index order); on an already-empty stack it changes nothing, and
    a second Clear() changes nothing. -/
theorem C9_clear_contract (h : Heap T) (s : Stack) (l : List T) (hm : Models h s l) :
    ∃ h1 s1, Stack.Clear h s = .ok (h1, s1) ∧
      s1.Size = 0 ∧ s1.Empty = true ∧ s1.Capacity = s.Capacity ∧
      s1.m_Container = s.m_Container ∧
      (∃ b, h1.block s1.m_Container = some b ∧ b.slots = s.Capacity) ∧
      h1.fresh = h.fresh ∧
      h1.log = h.log ++ (List.range s.Size).map (fun i => Event.destruct s.m_Container i) ∧
      (s.Size = 0 → h1 = h ∧ s1 = s) ∧
      Stack.Clear h1 s1 = .ok (h1, s1) := by
  obtain ⟨h1, hc, hm1, _, hfr, hlog⟩ := Clear_spec hm
  obtain ⟨_, _, _, _, _, b, hb, hs, _⟩ := hm1
  refine ⟨h1, _, hc, rfl, rfl, rfl, rfl, ⟨b, hb, hs⟩, hfr, hlog, ?_, Clear_empty _ _ rfl⟩
  intro h0
  have he := Clear_empty h s h0
  rw [hc] at he
  injection he with he
  injection he with e1 e2
  exact ⟨e1, e2⟩

/-- Concrete instance of the preceding theorem. -/
theorem C9_witness :
    Models demoHeap demoStack2 [10, 20] ∧
    ∃ h1 s1, Stack.Clear demoHeap demoStack2 = .ok (h1, s1) ∧
      s1.Size = 0 ∧ s1.Empty = true ∧ s1.Capacity = demoStack2.Capacity ∧
      s1.m_Container = demoStack2.m_Container ∧
      (∃ b, h1.block s1.m_Container = some b ∧ b.slots = demoStack2.Capacity) ∧
      h1.fresh = demoHeap.fresh ∧
      h1.log = demoHeap.log ++
        (List.range demoStack2.Size).map (fun i => Event.destruct demoStack2.m_Container i) ∧
      (demoStack2.Size = 0 → h1 = demoHeap ∧ s1 = demoStack2) ∧
      Stack.Clear h1 s1 = .ok (h1, s1) :=
  ⟨demoStack2_models, C9_clear_contract demoHeap demoStack2 [10, 20] demoStack2_models⟩

theorem runOps_frame (ops : List (Op T)) :
    ∀ (st st1 : RunState T) (l : List T) (x : Stack) (lx : List T),
      Models st.heap st.stack l → Models st.heap x lx →
      x.m_Container ≠ st.stack.m_Container → runOps ops st = .ok st1 →
      Models st1.heap x lx := by
  induction ops with
  | nil =>
    intro st st1 l x lx _ hx _ hr
    simp only [runOps] at hr
    injection hr with hr
    rw [← hr]; exact hx
  | cons op ops ih =>
    intro st st1 l x lx hm hx hne hr
    have hxlt : x.m_Container < st.heap.fresh := hx.2.2.2.2.1
    cases op with
    | push v =>
      simp only [runOps] at hr
      split at hr
      · cases hr
      · rename_i h1 s1 hp
        obtain ⟨hm1, _, _, hf, hcont⟩ := Push_ok_inv hm hp
        refine ih _ st1 _ x lx hm1 (hx.frame hf hne) ?_ hr
        simp only
        rcases hcont with hc | ⟨hc, _⟩
        · rw [hc]; exact hne
        · omega
    | pop =>
      simp only [runOps] at hr
      split at hr
      · cases hr
      · rename_i h1 s1 hp
        obtain ⟨hm1, _, _, hf, hcont⟩ := Pop_ok_inv hm hp
        refine ih _ st1 _ x lx hm1 (hx.frame hf hne) ?_ hr
        simp only
        rw [hcont]; exact hne

theorem CopyPost_of_models {h : Heap T} {a : Stack} {l : List T} {h1 : Heap T} {b : Stack}
    (ha : Models h a l) (ha1 : Models h1 a l) (hb1 : Models h1 b l)
    (hne : b.m_Container ≠ a.m_Container) (hsz : b.m_Size = a.m_Size)
    (hcap : b.m_Capacity = a.m_Capacity) : CopyPost h a h1 b := by
  have hl : l.length = a.m_Size := ha.1
  refine ⟨hsz, hcap, ?_, ?_, hne, ?_, ?_⟩
  · intro i hi
    simp only [Stack.Size] at hi
    rw [hb1.read i (by omega), ha.read i (by omega)]
  · intro i hi
    simp only [Stack.Size] at hi
    rw [ha1.read i (by omega), ha.read i (by omega)]
  · intro ops st hr i hi
    simp only [Stack.Size] at hi
    have hx := runOps_frame ops _ st l a l hb1 ha1 (fun e => hne e.symm) hr
    rw [hx.read i (by omega), ha.read i (by omega)]
  · intro ops st hr i hi
    simp only [Stack.Size] at hi
    have hx := runOps_frame ops _ st l b l ha1 hb1 hne hr
    rw [hx.read i (by omega), hb1.read i (by omega)]

/-- C10: copying is faithful and independent.  The stack produced by copy
    construction from a valid stack a, and the target of a copy assignment from
    a distinct valid stack a, has the size, the capacity and the elements (at
    every index below the size, in order) of a; a reads the same after the copy;
    the two own different buffers; and whatever sequence of pushes and pops is
    then executed on one of them, the other holds the same elements. -/
theorem C10_copy_faithful_and_independent :
    (∀ (h : Heap T) (a : Stack) (l : List T), Models h a l →
      ∃ h1 b, Stack.Stack_copy h a = .ok (h1, b) ∧ CopyPost h a h1 b) ∧
    (∀ (h : Heap T) (t a : Stack) (lt l : List T), Models h t lt → Models h a l →
      t.m_Container ≠ a.m_Container →
      ∃ h1 b, Stack.operator_assign_copy h t (Ref.distinct a) = .ok (h1, b) ∧
        CopyPost h a h1 b) := by
  constructor
  · intro h a l ha
    obtain ⟨h1, hc, hb1, ha1, _⟩ := Stack_copy_spec ha
    have hlt := ha.2.2.2.2.1
    exact ⟨h1, _, hc, CopyPost_of_models ha ha1 hb1 (by simp only; omega) rfl rfl⟩
  · intro h t a lt l ht ha hne
    obtain ⟨h1, hc, hb1, ha1, _⟩ := operator_assign_copy_spec ht ha hne
    have hlt := ha.2.2.2.2.1
    exact ⟨h1, _, hc, CopyPost_of_models ha ha1 hb1 (by simp only; omega) rfl rfl⟩

/-- Concrete instance of the preceding theorem. -/
theorem C10_witness :
    (Models demoHeap demoStack2 [10, 20] ∧
      ∃ h1 b, Stack.Stack_copy demoHeap demoStack2 = .ok (h1, b) ∧
        CopyPost demoHeap demoStack2 h1 b) ∧
    (Models demoHeap demoStack [7] ∧ Models demoHeap demoStack2 [10, 20] ∧
      demoStack.m_Container ≠ demoStack2.m_Container ∧
      ∃ h1 b, Stack.operator_assign_copy demoHeap demoStack (Ref.distinct demoStack2)
          = .ok (h1, b) ∧ CopyPost demoHeap demoStack2 h1 b) :=
  ⟨⟨demoStack2_models,
      (C10_copy_faithful_and_independent (T := Nat)).1 demoHeap demoStack2 [10, 20]
        demoStack2_models⟩,
    demoStack_models, demoStack2_models, by decide,
    (C10_copy_faithful_and_independent (T := Nat)).2 demoHeap demoStack demoStack2 [7] [10, 20]
      demoStack_models demoStack2_models (by decide)⟩

/-- C11, evaluated on `Stack<int> a; a.Push(10); a.Push(20);` followed by
    `Stack<int> b = std::move(a);` and, separately, by `t = std::move(a);` for a
    stack t holding 7.  After either move a is empty with size 0 and capacity
    1, but its buffer is still the two-cell block at 4097 holding 10 and 20;
    the one-cell block the move allocates (at 4098, respectively 4099) is
    referenced by neither object. -/
theorem C11_move_source_keeps_its_old_buffer :
    (∃ h a, sourceWithTwo = .ok (h, a) ∧
      a = { m_Container := 4097, m_Size := 2, m_Capacity := 2 } ∧
      (Stack.Stack_move h a).2.2 = { m_Container := 4097, m_Size := 0, m_Capacity := 1 } ∧
      (Stack.Stack_move h a).2.2.Empty = true ∧
      (Stack.Stack_move h a).1.slotsAt 4097 = some 2 ∧
      (Stack.Stack_move h a).1.read 4097 0 = .ok 10 ∧
      (Stack.Stack_move h a).1.read 4097 1 = .ok 20 ∧
      (Stack.Stack_move h a).1.slotsAt 4098 = some 1 ∧
      (Stack.Stack_move h a).2.1.m_Container = 2) ∧
    (∃ h a t, sourceAndTarget = .ok (h, a, t) ∧
      a = { m_Container := 4097, m_Size := 2, m_Capacity := 2 } ∧
      t = { m_Container := 4098, m_Size := 1, m_Capacity := 1 } ∧
      (Stack.operator_assign_move h t (Ref.distinct a)).2.2
        = some { m_Container := 4097, m_Size := 0, m_Capacity := 1 } ∧
      (Stack.operator_assign_move h t (Ref.distinct a)).1.slotsAt 4097 = some 2 ∧
      (Stack.operator_assign_move h t (Ref.distinct a)).1.read 4097 1 = .ok 20 ∧
      (Stack.operator_assign_move h t (Ref.distinct a)).1.slotsAt 4099 = some 1 ∧
      (Stack.operator_assign_move h t (Ref.distinct a)).2.1.m_Container = 2) :=
  ⟨⟨_, _, rfl, rfl, rfl, rfl, rfl, rfl, rfl, rfl, rfl⟩,
    ⟨_, _, _, rfl, rfl, rfl, rfl, rfl, rfl, rfl, rfl⟩⟩

/-- C12, evaluated on the same scenarios.  The moved-into object takes the size
    2 and the capacity 2 of a, but its m_Container is the number 2 (the
    capacity of a), not the address 4097 of the buffer of a; no block is
    allocated there, so Peak() on it is an undefined access, where Peak() on a
    returned 20 before the move. -/
theorem C12_move_target_gets_capacity_as_buffer :
    (∀ (h : Heap T) (a : Stack), (Stack.Stack_move h a).2.1.m_Container = a.m_Capacity) ∧
    (∀ (h : Heap T) (t a : Stack),
      (Stack.operator_assign_move h t (Ref.distinct a)).2.1.m_Container = a.m_Capacity) ∧
    (∃ h a, sourceWithTwo = .ok (h, a) ∧
      a = { m_Container := 4097, m_Size := 2, m_Capacity := 2 } ∧
      Stack.Peak h a = .ok 20 ∧
      (Stack.Stack_move h a).2.1 = { m_Container := 2, m_Size := 2, m_Capacity := 2 } ∧
      (Stack.Stack_move h a).1.slotsAt 2 = none ∧
      Stack.Peak (Stack.Stack_move h a).1 (Stack.Stack_move h a).2.1
        = .error Fault.undefined_behavior) ∧
    (∃ h a t, sourceAndTarget = .ok (h, a, t) ∧
      a = { m_Container := 4097, m_Size := 2, m_Capacity := 2 } ∧
      (Stack.operator_assign_move h t (Ref.distinct a)).2.1
        = { m_Container := 2, m_Size := 2, m_Capacity := 2 } ∧
      (Stack.operator_assign_move h t (Ref.distinct a)).1.slotsAt 2 = none ∧
      Stack.Peak (Stack.operator_assign_move h t (Ref.distinct a)).1
          (Stack.operator_assign_move h t (Ref.distinct a)).2.1
        = .error Fault.undefined_behavior) :=
  ⟨fun _ _ => rfl, fun _ _ _ => rfl,
    ⟨_, _, rfl, rfl, rfl, rfl, rfl, rfl⟩,
    ⟨_, _, _, rfl, rfl, rfl, rfl, rfl⟩⟩

/-- C13, evaluated on the scenario of `sourceAndTarget` (a holds 10 and 20 in
    the block at 4097, t holds 7 in the block at 4098).  The copy assignment
    `t = a` destroys the element of t once and frees the buffer of t before it
    allocates and copies.  The move assignment `t = std::move(a)` performs one
    allocation and nothing else: the element of t is not destroyed and the
    buffer of t is not freed, it stays allocated and still holds 7. -/
theorem C13_move_assignment_releases_nothing :
    (∀ (h : Heap T) (t a : Stack),
      (Stack.operator_assign_move h t (Ref.distinct a)).1.log
        = h.log ++ [Event.alloc h.fresh INITIAL_CAPACITY]) ∧
    (∃ h a t, sourceAndTarget = .ok (h, a, t) ∧
      a = { m_Container := 4097, m_Size := 2, m_Capacity := 2 } ∧
      t = { m_Container := 4098, m_Size := 1, m_Capacity := 1 } ∧
      (∃ h1 t1, Stack.operator_assign_copy h t (Ref.distinct a) = .ok (h1, t1) ∧
        h1.log = h.log ++ [Event.destruct 4098 0, Event.dealloc 4098 1, Event.alloc 4099 2,
          Event.construct 4099 0, Event.construct 4099 1] ∧
        h1.slotsAt 4098 = none) ∧
      (Stack.operator_assign_move h t (Ref.distinct a)).1.log
        = h.log ++ [Event.alloc 4099 1] ∧
      (Stack.operator_assign_move h t (Ref.distinct a)).1.slotsAt 4098 = some 1 ∧
      (Stack.operator_assign_move h t (Ref.distinct a)).1.read 4098 0 = .ok 7) :=
  ⟨fun _ _ _ => rfl, ⟨_, _, _, rfl, rfl, rfl, ⟨_, _, rfl, rfl, rfl⟩, rfl, rfl, rfl⟩⟩

/-- C14: self-assignment is a no-op.  Copy-assigning and move-assigning a stack
    to itself return the heap (its blocks and its event log, so nothing is
    destroyed, allocated or freed) and the object (buffer, size, capacity)
    exactly as they were. -/
theorem C14_self_assignment_is_a_no_op (h : Heap T) (s : Stack) :
    Stack.operator_assign_copy h s Ref.self = .ok (h, s) ∧
    Stack.operator_assign_move h s Ref.self = (h, s, none) :=
  ⟨rfl, rfl⟩

/-- C15, evaluated on `Stack<int> t; t.Push(7); Stack<int> a; t = std::move(a);`
    followed by the destruction of t and of a.  Every call returns normally,
    one element was constructed and none was destroyed: the 7 pushed onto t is
    still live in the block t owned before the assignment. -/
theorem C15_move_assignment_leaves_element_undestroyed :
    lifetimesAcrossMoveAssign = .ok (1, 0) :=
  rfl

/-- C16, evaluated on `{ Stack<int> s; s.Push(7); }`.  The destructor returns
    normally and destroys the element, but the one-cell buffer at 4096 is still
    allocated afterwards: one allocation was logged and no deallocation. -/
theorem C16_destructor_keeps_buffer_allocated :
    (∀ (h : Heap T) (s : Stack), Stack.destructor h s = Stack.Clear h s) ∧
    (∃ h p, scopeExit = .ok (h, p) ∧ p = 4096 ∧
      h.log = [Event.alloc 4096 1, Event.construct 4096 0, Event.destruct 4096 0] ∧
      h.slotsAt p = some 1 ∧
      h.log.countP Event.isAlloc = 1 ∧ h.log.countP Event.isDealloc = 0) :=
  ⟨fun _ _ => rfl, ⟨_, _, rfl, rfl, rfl, rfl, rfl, rfl⟩⟩

theorem forRange_ok_inv {σ : Type} (body : Nat → σ → Except Fault σ) (R : Nat → σ → Prop)
    (hstep : ∀ j st1 st2, R j st1 → body j st1 = .ok st2 → R (j + 1) st2) :
    ∀ (k i : Nat) (st st2 : σ), R i st → forRange body k i st = .ok st2 → R (i + k) st2 := by
  intro k
  induction k with
  | zero =>
    intro i st st2 h0 hr
    simp only [forRange] at hr
    injection hr with hr
    rw [← hr]; exact h0
  | succ k ih =>
    intro i st st2 h0 hr
    simp only [forRange] at hr
    split at hr
    · cases hr
    · rename_i st1 hb
      have := ih (i + 1) st1 st2 (hstep i st st1 h0 hb) hr
      have e : i + (k + 1) = i + 1 + k := by omega
      rw [e]; exact this

theorem forRange_error_ub {σ : Type} (body : Nat → σ → Except Fault σ)
    (hb : ∀ j st e, body j st = .error e → e = Fault.undefined_behavior) :
    ∀ (k i : Nat) (st : σ) (e : Fault), forRange body k i st = .error e →
      e = Fault.undefined_behavior := by
  intro k
  induction k with
  | zero => intro i st e hr; simp [forRange] at hr
  | succ k ih =>
    intro i st e hr
    simp only [forRange] at hr
    split at hr
    · rename_i e1 hbe
      injection hr with hr
      rw [← hr]; exact hb _ _ _ hbe
    · exact ih _ _ _ hr

theorem read_error_ub {h : Heap T} {p i : Nat} {e : Fault} (hr : h.read p i = .error e) :
    e = Fault.undefined_behavior := by
  unfold Heap.read at hr
  split at hr
  · injection hr with hr; exact hr.symm
  · split at hr
    · split at hr
      · injection hr with hr; exact hr.symm
      · cases hr
    · injection hr with hr; exact hr.symm

theorem construct_error_ub {h : Heap T} {p i : Nat} {v : T} {e : Fault}
    (hr : h.construct p i v = .error e) : e = Fault.undefined_behavior := by
  unfold Heap.construct at hr
  split at hr
  · injection hr with hr; exact hr.symm
  · split at hr
    · cases hr
    · injection hr with hr; exact hr.symm

theorem destroy_error_ub {h : Heap T} {p i : Nat} {e : Fault} (hr : h.destroy p i = .error e) :
    e = Fault.undefined_behavior := by
  unfold Heap.destroy at hr
  split at hr
  · injection hr with hr; exact hr.symm
  · split at hr
    · split at hr
      · injection hr with hr; exact hr.symm
      · cases hr
    · injection hr with hr; exact hr.symm

theorem operator_delete_error_ub {h : Heap T} {p n : Nat} {e : Fault}
    (hr : h.operator_delete p n = .error e) : e = Fault.undefined_behavior := by
  unfold Heap.operator_delete at hr
  split at hr
  · injection hr with hr; exact hr.symm
  · split at hr
    · cases hr
    · injection hr with hr; exact hr.symm

theorem relocateCell_error_ub {old new j : Nat} {h : Heap T} {e : Fault}
    (hr : relocateCell old new j h = .error e) : e = Fault.undefined_behavior := by
  unfold relocateCell at hr
  split at hr
  · rename_i e1 he
    injection hr with hr
    rw [← hr]; exact read_error_ub he
  · split at hr
    · rename_i e1 he
      injection hr with hr
      rw [← hr]; exact construct_error_ub he
    · exact destroy_error_ub hr

theorem Reallocate_invalid_argument_iff (h : Heap T) (s : Stack) (n : Nat) :
    Stack.Reallocate h s n = .error Fault.invalid_argument ↔ n ≤ s.m_Capacity := by
  constructor
  · intro hr
    by_contra hn
    unfold Stack.Reallocate at hr
    simp only [hn, if_false] at hr
    split at hr
    · rename_i e he
      injection hr with hr
      have := forRange_error_ub _ (fun j st e1 h1 => relocateCell_error_ub h1) _ _ _ _ he
      rw [hr] at this
      cases this
    · split at hr
      · rename_i e he
        injection hr with hr
        have := operator_delete_error_ub he
        rw [hr] at this
        cases this
      · cases hr
  · intro hn
    simp [Stack.Reallocate, hn]

theorem Push_invalid_argument {h : Heap T} {s : Stack} {v : T}
    (hp : Stack.Push h s v = .error Fault.invalid_argument) :
    s.m_Capacity ≤ s.m_Size ∧ s.m_Capacity * 2 % SIZE_MOD ≤ s.m_Capacity := by
  unfold Stack.Push at hp
  by_cases hge : s.m_Size ≥ s.m_Capacity
  · simp only [hge, if_true] at hp
    split at hp
    · rename_i e he
      injection hp with hp
      rw [hp] at he
      exact ⟨hge, (Reallocate_invalid_argument_iff _ _ _).mp he⟩
    · split at hp
      · rename_i e he
        injection hp with hp
        have := construct_error_ub he
        rw [hp] at this
        cases this
      · cases hp
  · simp only [hge, if_false] at hp
    split at hp
    · rename_i e he
      injection hp with hp
      have := construct_error_ub he
      rw [hp] at this
      cases this
    · cases hp

theorem Reachable_capacity_pos {s : Stack} (hr : Reachable T s) : 1 ≤ s.m_Capacity := by
  induction hr with
  | default h => simp [Stack.Stack_default, INITIAL_CAPACITY]
  | push h s v h1 s1 _ hp ih =>
    obtain ⟨_, hcase⟩ := Push_fields hp
    rcases hcase with ⟨_, hc, _⟩ | ⟨_, hlt, _⟩ <;> omega
  | push_move h s v h1 s1 _ hp ih =>
    rw [Push_move_eq] at hp
    obtain ⟨_, hcase⟩ := Push_fields hp
    rcases hcase with ⟨_, hc, _⟩ | ⟨_, hlt, _⟩ <;> omega
  | pop h s h1 s1 _ hp ih => rw [Pop_fields hp]; exact ih
  | clear h s h1 s1 _ hp ih => rw [Clear_fields hp]; exact ih
  | copy h a h1 b _ hp ih => rw [Stack_copy_fields hp]; exact ih
  | assign_copy h t a h1 t1 _ _ hp _ iha =>
    rw [(operator_assign_copy_fields hp).2]; exact iha

/-- C19: Push never triggers the invalid-growth error.  Every stack reachable
    from default construction by Push, Pop, Clear, copy construction and copy
    assignment has capacity at least 1; when twice the capacity is a
    std::size_t value (exact integer arithmetic), the argument that Push passes
    to Reallocate exceeds the capacity, and neither overload of Push ends with
    std::invalid_argument, in any heap and for any value. -/
theorem C19_push_never_throws_invalid_argument (s : Stack) (hr : Reachable T s)
    (hx : 2 * s.Capacity < SIZE_MOD) :
    1 ≤ s.Capacity ∧ s.Capacity < s.Capacity * 2 % SIZE_MOD ∧
    (∀ (h : Heap T) (v : T), Stack.Push h s v ≠ .error Fault.invalid_argument) ∧
    (∀ (h : Heap T) (v : T), Stack.Push_move h s v ≠ .error Fault.invalid_argument) := by
  have h1c : 1 ≤ s.m_Capacity := Reachable_capacity_pos hr
  simp only [Stack.Capacity] at hx ⊢
  have hgt : s.m_Capacity < s.m_Capacity * 2 % SIZE_MOD := by
    rw [Nat.mod_eq_of_lt (by omega)]; omega
  have hpush : ∀ (h : Heap T) (v : T), Stack.Push h s v ≠ .error Fault.invalid_argument := by
    intro h v hp
    have := (Push_invalid_argument hp).2
    omega
  exact ⟨h1c, hgt, hpush, fun h v => by rw [Push_move_eq]; exact hpush h v⟩

/-- Concrete instance of the preceding theorem. -/
theorem C19_witness :
    Reachable Nat { m_Container := 2, m_Size := 2, m_Capacity := 2 } ∧
    2 * Stack.Capacity { m_Container := 2, m_Size := 2, m_Capacity := 2 } < SIZE_MOD ∧
    (1 ≤ Stack.Capacity { m_Container := 2, m_Size := 2, m_Capacity := 2 } ∧
      Stack.Capacity { m_Container := 2, m_Size := 2, m_Capacity := 2 }
        < Stack.Capacity { m_Container := 2, m_Size := 2, m_Capacity := 2 } * 2 % SIZE_MOD ∧
      (∀ (h : Heap Nat) (v : Nat),
        Stack.Push h { m_Container := 2, m_Size := 2, m_Capacity := 2 } v
          ≠ .error Fault.invalid_argument) ∧
      (∀ (h : Heap Nat) (v : Nat),
        Stack.Push_move h { m_Container := 2, m_Size := 2, m_Capacity := 2 } v
          ≠ .error Fault.invalid_argument)) :=
  have hr : Reachable Nat { m_Container := 2, m_Size := 2, m_Capacity := 2 } :=
    Reachable.push demoHeap demoStack 8 _ _
      (Reachable.push (Stack.Stack_default (Heap.empty Nat)).1
        (Stack.Stack_default (Heap.empty Nat)).2 7 _ _
        (Reachable.default (Heap.empty Nat)) rfl) rfl
  ⟨hr, by decide, C19_push_never_throws_invalid_argument _ hr (by decide)⟩

theorem construct_log {h : Heap T} {p i : Nat} {v : T} {h1 : Heap T}
    (hc : h.construct p i v = .ok h1) : h1.log = h.log ++ [Event.construct p i] := by
  unfold Heap.construct at hc
  split at hc
  · cases hc
  · split at hc
    · injection hc with hc; rw [← hc]; rfl
    · cases hc

theorem destroy_log {h : Heap T} {p i : Nat} {h1 : Heap T}
    (hc : h.destroy p i = .ok h1) : h1.log = h.log ++ [Event.destruct p i] := by
  unfold Heap.destroy at hc
  split at hc
  · cases hc
  · split at hc
    · split at hc
      · cases hc
      · injection hc with hc; rw [← hc]; rfl
    · cases hc

theorem operator_delete_log {h : Heap T} {p n : Nat} {h1 : Heap T}
    (hc : h.operator_delete p n = .ok h1) : h1.log = h.log ++ [Event.dealloc p n] := by
  unfold Heap.operator_delete at hc
  split at hc
  · cases hc
  · split at hc
    · injection hc with hc; rw [← hc]
    · cases hc

theorem relocateCell_log {old new j : Nat} {h h1 : Heap T}
    (hc : relocateCell old new j h = .ok h1) :
    h1.log = h.log ++ [Event.construct new j, Event.destruct old j] := by
  unfold relocateCell at hc
  split at hc
  · cases hc
  · split at hc
    · cases hc
    · rename_i h2 hcon
      rw [destroy_log hc, construct_log hcon]; simp

theorem Reallocate_log {h : Heap T} {s : Stack} {n : Nat} {h1 : Heap T} {s1 : Stack}
    (hr : Stack.Reallocate h s n = .ok (h1, s1)) :
    h1.log = h.log ++ [Event.alloc h.fresh n] ++ relocLog s.m_Container h.fresh s.m_Size ++
      [Event.dealloc s.m_Container s.m_Capacity] := by
  unfold Stack.Reallocate at hr
  split at hr
  · cases hr
  · simp only at hr
    split at hr
    · cases hr
    · rename_i h2 hloop
      split at hr
      · cases hr
      · rename_i h3 hdel
        injection hr with hr
        injection hr with e1 _
        have hl := forRange_ok_inv (relocateCell s.m_Container (h.operator_new n).2)
          (fun j hh => hh.log = h.log ++ [Event.alloc h.fresh n]
            ++ relocLog s.m_Container h.fresh j)
          (fun j st1 st2 hR hb => by
            simp only at hR ⊢
            rw [relocateCell_log hb, hR]
            simp [relocLog, Heap.operator_new])
          s.m_Size 0 _ h2 (by simp [relocLog, Heap.operator_new]) hloop
        simp only [Nat.zero_add] at hl
        rw [← e1, operator_delete_log hdel, hl]

theorem Push_log {h : Heap T} {s : Stack} {v : T} {h1 : Heap T} {s1 : Stack}
    (hp : Stack.Push h s v = .ok (h1, s1)) :
    h1.log = h.log ++
      (if s.m_Size ≥ s.m_Capacity then
        [Event.alloc h.fresh (s.m_Capacity * 2 % SIZE_MOD)] ++
          relocLog s.m_Container h.fresh s.m_Size ++
          [Event.dealloc s.m_Container s.m_Capacity]
       else []) ++ [Event.construct s1.m_Container s.m_Size] := by
  unfold Stack.Push at hp
  by_cases hge : s.m_Size ≥ s.m_Capacity
  · simp only [hge, if_true] at hp ⊢
    split at hp
    · cases hp
    · rename_i h2 s2 hr
      obtain ⟨_, hs2⟩ := Reallocate_fields hr
      split at hp
      · cases hp
      · rename_i h3 hcon
        injection hp with hp
        injection hp with e1 e2
        subst hs2
        rw [← e1, ← e2, construct_log hcon, Reallocate_log hr]
        simp
  · simp only [hge, if_false] at hp ⊢
    split at hp
    · cases hp
    · rename_i h3 hcon
      injection hp with hp
      injection hp with e1 e2
      rw [← e1, ← e2, construct_log hcon]
      simp

theorem relocLog_counts (old new : Nat) (j : Nat) :
    (relocLog old new j).countP Event.isDestruct = j ∧
    (relocLog old new j).countP Event.isConstruct = j ∧
    (relocLog old new j).countP Event.isAlloc = 0 ∧
    (relocLog old new j).countP Event.isDealloc = 0 := by
  induction j with
  | zero => simp [relocLog]
  | succ j ih =>
    obtain ⟨h1, h2, h3, h4⟩ := ih
    simp [relocLog, List.countP_append, h1, h2, h3, h4, Event.isDestruct, Event.isConstruct,
      Event.isAlloc, Event.isDealloc, List.countP_cons]

theorem Push_growth {h : Heap T} {s : Stack} {evs : List Event} {k : Nat} (v : T)
    (hg : GrowthInv h s evs k) (hsz : s.m_Size < 2 ^ 63) :
    ∃ h1 s1 d k1, Stack.Push h s v = .ok (h1, s1) ∧ h1.log = h.log ++ d ∧
      GrowthInv h1 s1 (evs ++ d) k1 ∧ s1.m_Size = s.m_Size + 1 ∧
      (s1.m_Capacity = s.m_Capacity ∨ s1.m_Capacity = 2 * s.m_Capacity) := by
  obtain ⟨⟨l, hm⟩, hcap, hhalf, hdes, hdea, hall, hcon⟩ := hg
  have hsc : s.m_Size ≤ s.m_Capacity := hm.2.1
  have hgrow : s.m_Size = s.m_Capacity → s.m_Capacity < s.m_Capacity * 2 % SIZE_MOD := by
    intro heq
    rw [Nat.mod_eq_of_lt (by simp only [SIZE_MOD]; omega)]
    have := hm.2.2.1
    omega
  obtain ⟨h1, s1, hp, hm1, hs1, hc1, _, _⟩ := Push_spec v hm hgrow
  have hlog := Push_log hp
  by_cases hlt : s.m_Size < s.m_Capacity
  · have hge : ¬ s.m_Size ≥ s.m_Capacity := by omega
    have hne : s.m_Size ≠ s.m_Capacity := by omega
    simp only [hge, if_false, List.append_nil] at hlog
    simp only [hne, if_false] at hc1
    refine ⟨h1, s1, _, k, hp, hlog, ⟨⟨_, hm1⟩, by rw [hc1]; exact hcap, ?_, ?_, ?_, ?_, ?_⟩,
      hs1, Or.inl hc1⟩
    · rcases hhalf with h0 | h0
      · exact Or.inl h0
      · right; omega
    · simpa [List.countP_append, List.countP_cons, Event.isDestruct] using hdes
    · simpa [List.countP_append, List.countP_cons, Event.isDealloc] using hdea
    · simpa [List.countP_append, List.countP_cons, Event.isAlloc] using hall
    · simp [List.countP_append, List.countP_cons, Event.isConstruct, Event.isDestruct, hcon,
        hs1]
      omega
  · have heq : s.m_Size = s.m_Capacity := by omega
    have hge : s.m_Size ≥ s.m_Capacity := by omega
    have hmod : s.m_Capacity * 2 % SIZE_MOD = 2 * s.m_Capacity := by
      rw [Nat.mod_eq_of_lt (by simp only [SIZE_MOD]; omega)]; omega
    simp only [hge, if_true] at hlog
    rw [List.append_assoc] at hlog
    simp only [heq, if_true, hmod] at hc1
    obtain ⟨r1, r2, r3, r4⟩ := relocLog_counts s.m_Container h.fresh s.m_Size
    have hpow : 2 ^ (k + 1) = 2 * 2 ^ k := by rw [pow_succ]; omega
    refine ⟨h1, s1, _, k + 1, hp, hlog, ⟨⟨_, hm1⟩, by rw [hc1, hcap, hpow], ?_, ?_, ?_, ?_, ?_⟩,
      hs1, Or.inr hc1⟩
    · right
      simp only [Nat.add_sub_cancel]
      omega
    · simp only [List.countP_append, List.countP_cons, List.countP_nil, Event.isDestruct, r1]
      simp
      omega
    · simp only [List.countP_append, List.countP_cons, List.countP_nil, Event.isDealloc, r4]
      simp
      omega
    · simp only [List.countP_append, List.countP_cons, List.countP_nil, Event.isAlloc, r3]
      simp
      omega
    · simp only [List.countP_append, List.countP_cons, List.countP_nil, Event.isConstruct,
        Event.isDestruct, r1, r2]
      simp
      omega

theorem GrowthInv_init (h : Heap T) :
    GrowthInv (RunState.init h).heap (RunState.init h).stack [] 0 :=
  ⟨⟨[], (Stack_default_spec h).1⟩, rfl, Or.inl rfl, rfl, rfl, rfl, rfl⟩

theorem GrowthInv_clog {h : Heap T} {s : Stack} {evs : List Event} {k : Nat}
    (hg : GrowthInv h s evs k) : k = Nat.clog 2 s.m_Size := by
  obtain ⟨⟨l, hm⟩, hcap, hhalf, _⟩ := hg
  have hle : s.m_Size ≤ 2 ^ k := by rw [← hcap]; exact hm.2.1
  have h1 : Nat.clog 2 s.m_Size ≤ k := (Nat.le_pow_iff_clog_le (by decide)).mp hle
  rcases hhalf with h0 | h0
  · omega
  · have h2 : k - 1 < Nat.clog 2 s.m_Size := (Nat.pow_lt_iff_lt_clog (by decide)).mp h0
    omega

theorem pushes_growth (vs : List T) :
    ∀ (st : RunState T) (evs : List Event) (k : Nat), GrowthInv st.heap st.stack evs k →
      st.stack.m_Size + vs.length ≤ 2 ^ 63 →
      ∃ st1 d k1, runOps (vs.map Op.push) st = .ok st1 ∧ st1.heap.log = st.heap.log ++ d ∧
        GrowthInv st1.heap st1.stack (evs ++ d) k1 ∧
        st1.stack.m_Size = st.stack.m_Size + vs.length := by
  induction vs with
  | nil =>
    intro st evs k hg _
    exact ⟨st, [], k, rfl, by simp, by simpa using hg, rfl⟩
  | cons v vs ih =>
    intro st evs k hg hlen
    simp only [List.length_cons] at hlen
    obtain ⟨h1, s1, d, k1, hp, hlog, hg1, hs1, _⟩ := Push_growth v hg (by omega)
    obtain ⟨st1, d1, k2, hr, hlog1, hg2, hs2⟩ :=
      ih { heap := h1, stack := s1, pushes := st.pushes + 1, pops := st.pops } (evs ++ d) k1 hg1
        (by simp only; omega)
    refine ⟨st1, d ++ d1, k2, ?_, ?_, ?_, ?_⟩
    · simp only [List.map_cons, runOps, hp]; exact hr
    · simp only at hlog1; rw [hlog1, hlog, List.append_assoc]
    · rw [← List.append_assoc]; exact hg2
    · simp only at hs2; rw [hs2, hs1, List.length_cons]; omega

theorem capacityTrace_growth (vs : List T) :
    ∀ (h : Heap T) (s : Stack) (evs : List Event) (k : Nat), GrowthInv h s evs k →
      s.m_Size + vs.length ≤ 2 ^ 63 →
      capacityTrace vs h s
        = .ok ((List.range (vs.length + 1)).map (fun j => 2 ^ Nat.clog 2 (s.m_Size + j))) := by
  induction vs with
  | nil =>
    intro h s evs k hg _
    have hk := GrowthInv_clog hg
    simp [capacityTrace, Stack.Capacity, hg.2.1, ← hk, List.range_succ]
  | cons v vs ih =>
    intro h s evs k hg hlen
    simp only [List.length_cons] at hlen
    have hk := GrowthInv_clog hg
    obtain ⟨h1, s1, d, k1, hp, _, hg1, hs1, _⟩ := Push_growth v hg (by omega)
    have hrec := ih h1 s1 (evs ++ d) k1 hg1 (by omega)
    simp only [capacityTrace, hp, hrec, List.length_cons]
    rw [List.range_succ_eq_map (vs.length + 1)]
    simp only [List.map_cons, List.map_map, Stack.Capacity, hg.2.1, Nat.add_zero, ← hk]
    congr 2
    apply List.map_congr_left
    intro j _
    simp only [Function.comp, hs1]
    congr 2
    omega

/-- C18: growth is amortized constant per push.  For every N from 1 to 2^63, N
    pushes onto a default-constructed stack return normally; among the events
    logged since the construction the element destructions, one per element
    relocated inside Reallocate, number fewer than 2 * N, the deallocations, one
    per reallocation, number at most the ceiling of log2 N, there are as many
    allocations, and the constructions are the N pushed elements plus the
    relocated ones. -/
theorem C18_amortized_growth (h : Heap T) (vs : List T) (hpos : 1 ≤ vs.length)
    (hlen : vs.length ≤ 2 ^ 63) :
    ∃ st evs, runOps (vs.map Op.push) (RunState.init h) = .ok st ∧
      st.heap.log = (RunState.init h).heap.log ++ evs ∧
      evs.countP Event.isDestruct < 2 * vs.length ∧
      evs.countP Event.isDealloc ≤ Nat.clog 2 vs.length ∧
      evs.countP Event.isAlloc = evs.countP Event.isDealloc ∧
      evs.countP Event.isConstruct = vs.length + evs.countP Event.isDestruct := by
  obtain ⟨st, d, k, hr, hlog, hg, hsz⟩ :=
    pushes_growth vs (RunState.init h) [] 0 (GrowthInv_init h)
      (by simp only [RunState.init, Stack.Stack_default]; omega)
  have hN : st.stack.m_Size = vs.length := by
    rw [hsz]; simp [RunState.init, Stack.Stack_default]
  have hk := GrowthInv_clog hg
  obtain ⟨_, _, hhalf, hdes, hdea, hall, hcon⟩ := hg
  rw [List.nil_append] at hdes hdea hall hcon
  refine ⟨st, d, hr, hlog, ?_, ?_, ?_, ?_⟩
  · rcases hhalf with h0 | h0
    · rw [h0, pow_zero] at hdes; omega
    · cases k with
      | zero => simp at h0; omega
      | succ m =>
        simp only [Nat.add_sub_cancel] at h0
        rw [pow_succ] at hdes
        omega
  · rw [hdea, hk, hN]
  · rw [hall, hdea]
  · rw [hcon, hN]

/-- Concrete instance of the preceding theorem. -/
theorem C18_witness :
    1 ≤ ([1, 2, 3, 4, 5] : List Nat).length ∧ ([1, 2, 3, 4, 5] : List Nat).length ≤ 2 ^ 63 ∧
    ∃ st evs, runOps ([1, 2, 3, 4, 5].map Op.push) (RunState.init (Heap.empty Nat)) = .ok st ∧
      st.heap.log = (RunState.init (Heap.empty Nat)).heap.log ++ evs ∧
      evs.countP Event.isDestruct < 2 * [1, 2, 3, 4, 5].length ∧
      evs.countP Event.isDealloc ≤ Nat.clog 2 [1, 2, 3, 4, 5].length ∧
      evs.countP Event.isAlloc = evs.countP Event.isDealloc ∧
      evs.countP Event.isConstruct = [1, 2, 3, 4, 5].length + evs.countP Event.isDestruct :=
  ⟨by decide, by decide,
    C18_amortized_growth (Heap.empty Nat) [1, 2, 3, 4, 5] (by decide) (by decide)⟩

theorem clog_two_succ (j : Nat) :
    Nat.clog 2 (j + 1) = Nat.clog 2 j ∨ Nat.clog 2 (j + 1) = Nat.clog 2 j + 1 := by
  have hmono : Nat.clog 2 j ≤ Nat.clog 2 (j + 1) := Nat.clog_mono_right 2 (Nat.le_succ j)
  have hj : j ≤ 2 ^ Nat.clog 2 j := Nat.le_pow_clog (by decide) j
  by_cases hlt : j + 1 ≤ 2 ^ Nat.clog 2 j
  · left
    have := (Nat.le_pow_iff_clog_le (by decide : 1 < 2)).mp hlt
    omega
  · right
    have hp : 1 ≤ 2 ^ Nat.clog 2 j := Nat.one_le_two_pow
    have hle : j + 1 ≤ 2 ^ (Nat.clog 2 j + 1) := by rw [pow_succ]; omega
    have := (Nat.le_pow_iff_clog_le (by decide : 1 < 2)).mp hle
    have hgt : 2 ^ Nat.clog 2 j < j + 1 := by omega
    have := (Nat.pow_lt_iff_lt_clog (by decide : 1 < 2)).mp hgt
    omega

/-- C20: capacity follows pure doubling from 1.  For every n up to 2^63, n
    pushes onto a default-constructed stack return normally with Size() == n and
    Capacity() the smallest power of two that is at least n, namely 2 to the
    ceiling of log2 n; the capacities observed before each push and after the
    last one are the smallest powers of two above 0, 1, ..., n, so that each is
    the previous one or exactly twice the previous one, starting from 1. -/
theorem C20_capacity_doubles_from_one (h : Heap T) (vs : List T)
    (hlen : vs.length ≤ 2 ^ 63) :
    ∃ st cs, runOps (vs.map Op.push) (RunState.init h) = .ok st ∧
      st.stack.Size = vs.length ∧
      st.stack.Capacity = 2 ^ Nat.clog 2 vs.length ∧
      vs.length ≤ st.stack.Capacity ∧
      (∀ j, vs.length ≤ 2 ^ j → st.stack.Capacity ≤ 2 ^ j) ∧
      capacityTrace vs (RunState.init h).heap (RunState.init h).stack = .ok cs ∧
      cs = (List.range (vs.length + 1)).map (fun j => 2 ^ Nat.clog 2 j) ∧
      cs[0]? = some 1 ∧
      (∀ j, j < vs.length →
        ∃ c, cs[j]? = some c ∧ (cs[j + 1]? = some c ∨ cs[j + 1]? = some (2 * c))) := by
  have h0 : (RunState.init h).stack.m_Size = 0 := rfl
  obtain ⟨st, d, k, hr, _, hg, hsz⟩ :=
    pushes_growth vs (RunState.init h) [] 0 (GrowthInv_init h) (by rw [h0]; omega)
  rw [h0, Nat.zero_add] at hsz
  have hk := GrowthInv_clog hg
  have hcap : st.stack.m_Capacity = 2 ^ Nat.clog 2 vs.length := by
    rw [hg.2.1, hk, hsz]
  have htr := capacityTrace_growth vs (RunState.init h).heap (RunState.init h).stack [] 0
    (GrowthInv_init h) (by rw [h0]; omega)
  simp only [h0, Nat.zero_add] at htr
  refine ⟨st, _, hr, hsz, hcap, ?_, ?_, htr, rfl, ?_, ?_⟩
  · simp only [Stack.Capacity, hcap]; exact Nat.le_pow_clog (by decide) _
  · intro j hj
    simp only [Stack.Capacity, hcap]
    exact Nat.pow_le_pow_right (by decide) ((Nat.le_pow_iff_clog_le (by decide)).mp hj)
  · simp [List.range_succ_eq_map]
  · intro j hj
    refine ⟨2 ^ Nat.clog 2 j, ?_, ?_⟩
    · rw [List.getElem?_map, List.getElem?_range (by omega)]; rfl
    · rw [List.getElem?_map, List.getElem?_range (by omega)]
      rcases clog_two_succ j with e | e
      · left; simp [e]
      · right; simp [e, pow_succ]; omega

/-- Concrete instance of the preceding theorem: four pushes. -/
theorem C20_witness :
    ([1, 2, 3, 4] : List Nat).length ≤ 2 ^ 63 ∧
    (∃ st cs, runOps ([1, 2, 3, 4].map Op.push) (RunState.init (Heap.empty Nat)) = .ok st ∧
      st.stack.Size = [1, 2, 3, 4].length ∧
      st.stack.Capacity = 2 ^ Nat.clog 2 [1, 2, 3, 4].length ∧
      [1, 2, 3, 4].length ≤ st.stack.Capacity ∧
      (∀ j, [1, 2, 3, 4].length ≤ 2 ^ j → st.stack.Capacity ≤ 2 ^ j) ∧
      capacityTrace [1, 2, 3, 4] (RunState.init (Heap.empty Nat)).heap
        (RunState.init (Heap.empty Nat)).stack = .ok cs ∧
      cs = (List.range ([1, 2, 3, 4].length + 1)).map (fun j => 2 ^ Nat.clog 2 j) ∧
      cs[0]? = some 1 ∧
      (∀ j, j < [1, 2, 3, 4].length →
        ∃ c, cs[j]? = some c ∧ (cs[j + 1]? = some c ∨ cs[j + 1]? = some (2 * c)))) ∧
    capacityTrace [1, 2, 3, 4] (RunState.init (Heap.empty Nat)).heap
      (RunState.init (Heap.empty Nat)).stack = .ok [1, 1, 2, 4, 4] :=
  ⟨by decide, C20_capacity_doubles_from_one (Heap.empty Nat) [1, 2, 3, 4] (by decide), rfl⟩

/-! ## Reference arguments -/

theorem Peak_ref_deref (h : Heap T) (s : Stack) :
    h.deref (Stack.Peak_ref T s) = Stack.Peak h s := rfl

theorem Push_ref_outside (h : Heap T) (s : Stack) (v : T) :
    Stack.Push_ref h s (ValueRef.outside v) = Stack.Push h s v := by
  unfold Stack.Push_ref Stack.Push
  split
  · rfl
  · rfl

theorem Push_ref_own_element_full {h : Heap T} {s : Stack} {l : List T} (i : Nat)
    (hm : Models h s l) (hfull : s.m_Size = s.m_Capacity)
    (hx : s.m_Capacity * 2 < SIZE_MOD) :
    Stack.Push_ref h s (ValueRef.element s.m_Container i)
      = .error Fault.undefined_behavior := by
  have h1c := hm.2.2.1
  have hmod : s.m_Capacity * 2 % SIZE_MOD = s.m_Capacity * 2 := Nat.mod_eq_of_lt hx
  obtain ⟨h1, hr, _, _, _, hfree⟩ :=
    Reallocate_spec hm (by omega : s.m_Capacity < s.m_Capacity * 2) hx
  have hge : s.m_Size ≥ s.m_Capacity := by omega
  simp only [Stack.Push_ref, hge, if_true, hmod, hr, Heap.deref, Heap.read, hfree]

theorem Push_ref_own_element_room {h : Heap T} {s : Stack} {l : List T} (i : Nat)
    (hm : Models h s l) (hroom : s.m_Size < s.m_Capacity) (hi : i < l.length) :
    Stack.Push_ref h s (ValueRef.element s.m_Container i) = Stack.Push h s l[i] := by
  have hge : ¬ s.m_Size ≥ s.m_Capacity := by omega
  simp only [Stack.Push_ref, Stack.Push, hge, if_false, Heap.deref, hm.read i hi]

/-- C2, evaluated on `Stack<int> a; a.Push(10); a.Push(20); a.Push(a.Peak());`.
    Before the last call a is full, Peak() returns 20 and refers to cell 1 of
    the block at 4097.  The call first reallocates, which destroys that cell
    and frees the block, and only then copies from the reference: an undefined
    access, where the claim promises Peak() == 20.  With the value copied out
    first (`int v = a.Peak(); a.Push(v);`) the call returns and Peak() is 20. -/
theorem C2_push_of_own_top_reads_freed_buffer :
    ∃ h a, sourceWithTwo = .ok (h, a) ∧
      a = { m_Container := 4097, m_Size := 2, m_Capacity := 2 } ∧
      Stack.Peak h a = .ok 20 ∧
      Stack.Peak_ref Nat a = ValueRef.element 4097 1 ∧
      Stack.Push_ref h a (Stack.Peak_ref Nat a) = .error Fault.undefined_behavior ∧
      (∃ h1 a1, Stack.Push_ref h a (ValueRef.outside 20) = .ok (h1, a1) ∧
        Stack.Peak h1 a1 = .ok 20) :=
  ⟨_, _, rfl, rfl, rfl, rfl, rfl, ⟨_, _, rfl, rfl⟩⟩

/-- C4, evaluated on `Stack<int> a; a.Push(10); a.Push(20);` followed by
    `a.Push(a.Peak()); a.Pop();`.  The push reads its argument in the buffer it
    has just freed, so the pair of calls is an undefined access and yields no
    stack to compare with the one of size 2 before it; with the value copied
    out first the pair returns a stack of size 2 holding 10 and 20. -/
theorem C4_push_of_own_top_then_pop_is_undefined :
    ∃ h a, sourceWithTwo = .ok (h, a) ∧ a.Size = 2 ∧
      h.read a.m_Container 0 = .ok 10 ∧ h.read a.m_Container 1 = .ok 20 ∧
      pushThenPop h a (Stack.Peak_ref Nat a) = .error Fault.undefined_behavior ∧
      (∃ h2 a2, pushThenPop h a (ValueRef.outside 20) = .ok (h2, a2) ∧ a2.Size = 2 ∧
        h2.read a2.m_Container 0 = .ok 10 ∧ h2.read a2.m_Container 1 = .ok 20) :=
  ⟨_, _, rfl, rfl, rfl, rfl, rfl, ⟨_, _, rfl, rfl, rfl, rfl⟩⟩

/-- C7, evaluated on `Stack<int> a; a.Push(10); a.Push(20); a.Push(a.Peak());`.
    The stack is full, so Push calls Reallocate(4): the elements move to the
    block at 4098 and the block at 4097 is freed.  The argument still refers to
    cell 1 of the block at 4097, so the construction of the element at index 2
    reads a freed cell: the call is undefined and there is no element equal to
    the value 20 at index old size. -/
theorem C7_push_of_own_top_constructs_from_freed_cell :
    ∃ h a h1 a1, sourceWithTwo = .ok (h, a) ∧
      a = { m_Container := 4097, m_Size := 2, m_Capacity := 2 } ∧
      h.deref (Stack.Peak_ref Nat a) = .ok 20 ∧
      Stack.Reallocate h a (a.m_Capacity * 2 % SIZE_MOD) = .ok (h1, a1) ∧
      a1 = { m_Container := 4098, m_Size := 2, m_Capacity := 4 } ∧
      h1.slotsAt 4097 = none ∧
      h1.deref (Stack.Peak_ref Nat a) = .error Fault.undefined_behavior ∧
      Stack.Push_ref h a (Stack.Peak_ref Nat a) = .error Fault.undefined_behavior :=
  ⟨_, _, _, _, rfl, rfl, rfl, rfl, rfl, rfl, rfl, rfl⟩

theorem Reallocate_outcome_exception_iff (sizeofT : Nat) (grants : Nat → Bool) (h : Heap T)
    (s : Stack) (n : Nat) :
    (Stack.Reallocate_outcome sizeofT grants h s n).exception = some Exn.invalid_argument ↔
      n ≤ s.m_Capacity := by
  unfold Stack.Reallocate_outcome
  by_cases hn : n ≤ s.m_Capacity
  · simp [hn, Outcome.exception]
  · simp only [hn, if_false, iff_false]
    split
    · simp [Outcome.exception]
    · split
      · simp [Outcome.exception]
      · split
        · simp [Outcome.exception]
        · simp [Outcome.exception]

theorem Reallocate_outcome_granted {sizeofT : Nat} {grants : Nat → Bool} (h : Heap T) (s : Stack)
    {n : Nat} (hsz : 1 ≤ sizeofT) (hx : n * sizeofT < SIZE_MOD)
    (hg : grants (n * sizeofT) = true) :
    Stack.Reallocate_outcome sizeofT grants h s n
      = Outcome.ofExcept h s (Stack.Reallocate h s n) := by
  unfold Stack.Reallocate_outcome Stack.Reallocate
  by_cases hn : n ≤ s.m_Capacity
  · simp only [hn, if_true, Outcome.ofExcept]
  · have hbytes : n * sizeofT % SIZE_MOD = n * sizeofT := Nat.mod_eq_of_lt hx
    have hcells : n * sizeofT / sizeofT = n := Nat.mul_div_cancel n (by omega)
    have hcap : s.m_Capacity * sizeofT % SIZE_MOD = s.m_Capacity * sizeofT := by
      apply Nat.mod_eq_of_lt
      have : s.m_Capacity * sizeofT ≤ n * sizeofT := Nat.mul_le_mul_right _ (by omega)
      omega
    simp only [hn, if_false, hbytes, hg, hcells, hcap]
    simp only [Bool.true_eq_false, if_false]
    split
    · rename_i e he
      have := forRange_error_ub _ (fun j st e1 h1 => relocateCell_error_ub h1) _ _ _ _ he
      subst this
      rfl
    · rename_i h1 hloop
      unfold Heap.operator_delete_bytes Heap.operator_delete
      cases hb : h1.block s.m_Container with
      | none => rfl
      | some b =>
        simp only
        by_cases hs : b.slots = s.m_Capacity
        · simp only [hs, if_true, Outcome.ofExcept]
        · have hs2 : ¬ b.slots * sizeofT = s.m_Capacity * sizeofT := by
            intro heq
            exact hs (Nat.eq_of_mul_eq_mul_right (by omega) heq)
          simp only [hs, hs2, if_false, Outcome.ofExcept]

/-- C17 as stated fails for a newCapacity above the capacity whose allocation
    is not the plain success the claim assumes.  On the stack a of
    `Stack<int> a; a.Push(10); a.Push(20);` (capacity 2, `sizeof(int)` 4, an
    allocator that refuses more than `PTRDIFF_MAX` bytes), `Reallocate(2^61)`
    asks for 2^63 bytes and ends with `std::bad_alloc`, the stack unchanged;
    `Reallocate(2^62)` asks for 2^64 bytes, which wraps to 0, gets a block
    without room for a cell and relocates into it: undefined behaviour. -/
theorem C17_counterexample_reallocate_above_capacity_fails :
    ∃ h a, sourceWithTwo = .ok (h, a) ∧ a.Capacity = 2 ∧
      Stack.Reallocate_outcome 4 grantsUpToPtrdiffMax h a (2 ^ 61)
        = Outcome.threw Exn.bad_alloc h a ∧
      Stack.Reallocate_outcome 4 grantsUpToPtrdiffMax h a (2 ^ 62) = Outcome.undefined :=
  ⟨_, _, rfl, rfl, rfl, rfl⟩

/-- C17 (amended): Reallocate(newCapacity) throws std::invalid_argument if and
    only if newCapacity is at most the current capacity, and the heap and the
    object at the throw are the ones of the call.  When newCapacity is greater
    and the allocator refuses the request, std::bad_alloc leaves the call, again
    with the heap and the object unchanged.  When newCapacity is greater, the
    byte count newCapacity * sizeof(T) does not wrap and the allocator grants
    it, the call on a valid stack returns with the capacity exactly
    newCapacity, and the size and every element at an index below the size are
    unchanged and in the same order. -/
theorem C17_reallocate_contract_amended (sizeofT : Nat) (grants : Nat → Bool) (h : Heap T)
    (s : Stack) (n : Nat) :
    ((Stack.Reallocate_outcome sizeofT grants h s n).exception = some Exn.invalid_argument ↔
      n ≤ s.Capacity) ∧
    (n ≤ s.Capacity →
      Stack.Reallocate_outcome sizeofT grants h s n = Outcome.threw Exn.invalid_argument h s) ∧
    (s.Capacity < n → grants (n * sizeofT % SIZE_MOD) = false →
      Stack.Reallocate_outcome sizeofT grants h s n = Outcome.threw Exn.bad_alloc h s) ∧
    (∀ l : List T, Models h s l → 1 ≤ sizeofT → s.Capacity < n → n * sizeofT < SIZE_MOD →
      grants (n * sizeofT) = true →
      ∃ h1 s1, Stack.Reallocate_outcome sizeofT grants h s n = Outcome.returned h1 s1 ∧
        s1.Capacity = n ∧ s1.Size = s.Size ∧
        (∀ i, i < s.Size → h1.read s1.m_Container i = h.read s.m_Container i) ∧
        Models h1 s1 l) := by
  refine ⟨Reallocate_outcome_exception_iff sizeofT grants h s n, ?_, ?_, ?_⟩
  · intro hn
    simp only [Stack.Capacity] at hn
    simp only [Stack.Reallocate_outcome, hn, if_true]
  · intro hn hg
    simp only [Stack.Capacity] at hn
    have hn2 : ¬ n ≤ s.m_Capacity := by omega
    simp only [Stack.Reallocate_outcome, hn2, if_false, hg, if_true]
  · intro l hm hsz hn hx hg
    simp only [Stack.Capacity] at hn
    have hn64 : n < SIZE_MOD := by
      have : n * 1 ≤ n * sizeofT := Nat.mul_le_mul_left n hsz
      omega
    obtain ⟨h1, hr, hm1, _⟩ := Reallocate_spec hm hn hn64
    refine ⟨h1, { s with m_Container := h.fresh, m_Capacity := n }, ?_, rfl, rfl, ?_, hm1⟩
    · rw [Reallocate_outcome_granted h s hsz hx hg, hr]; rfl
    · intro i hi
      have hil : i < l.length := by rw [hm.1]; exact hi
      rw [hm1.read i hil, hm.read i hil]

/-- Concrete instance of the preceding theorem: on the stack of `demoHeap`
    holding 10 and 20 with capacity 2, `Reallocate(2)` throws invalid_argument,
    `Reallocate(2^61)` ends with bad_alloc and `Reallocate(5)` returns, for
    `sizeof(T)` 4 and an allocator granting up to `PTRDIFF_MAX` bytes. -/
theorem C17_witness :
    ((Stack.Reallocate_outcome 4 grantsUpToPtrdiffMax demoHeap demoStack2 2).exception
        = some Exn.invalid_argument ↔ 2 ≤ demoStack2.Capacity) ∧
    (2 ≤ demoStack2.Capacity ∧
      Stack.Reallocate_outcome 4 grantsUpToPtrdiffMax demoHeap demoStack2 2
        = Outcome.threw Exn.invalid_argument demoHeap demoStack2) ∧
    (demoStack2.Capacity < 2 ^ 61 ∧ grantsUpToPtrdiffMax (2 ^ 61 * 4 % SIZE_MOD) = false ∧
      Stack.Reallocate_outcome 4 grantsUpToPtrdiffMax demoHeap demoStack2 (2 ^ 61)
        = Outcome.threw Exn.bad_alloc demoHeap demoStack2) ∧
    (Models demoHeap demoStack2 [10, 20] ∧ 1 ≤ 4 ∧ demoStack2.Capacity < 5 ∧
      5 * 4 < SIZE_MOD ∧ grantsUpToPtrdiffMax (5 * 4) = true ∧
      ∃ h1 s1, Stack.Reallocate_outcome 4 grantsUpToPtrdiffMax demoHeap demoStack2 5
          = Outcome.returned h1 s1 ∧
        s1.Capacity = 5 ∧ s1.Size = demoStack2.Size ∧
        (∀ i, i < demoStack2.Size →
          h1.read s1.m_Container i = demoHeap.read demoStack2.m_Container i) ∧
        Models h1 s1 [10, 20]) :=
  ⟨(C17_reallocate_contract_amended 4 grantsUpToPtrdiffMax demoHeap demoStack2 2).1,
    ⟨by decide,
      (C17_reallocate_contract_amended 4 grantsUpToPtrdiffMax demoHeap demoStack2 2).2.1
        (by decide)⟩,
    ⟨by decide, by decide,
      (C17_reallocate_contract_amended 4 grantsUpToPtrdiffMax demoHeap demoStack2
        (2 ^ 61)).2.2.1 (by decide) (by decide)⟩,
    demoStack2_models, by decide, by decide, by decide, by decide,
    (C17_reallocate_contract_amended 4 grantsUpToPtrdiffMax demoHeap demoStack2 5).2.2.2
      [10, 20] demoStack2_models (by decide) (by decide) (by decide) (by decide)⟩

end StackHpp
